import Mathlib

/-!
Verification of the postgres-data-store query builder.

This file gives a shallow embedding of `src/QueryBuilder.ts` and
`src/indexUtils.ts` and proves properties of the SQL/bind-value pairs the
builder emits.  JavaScript values are modelled by the inductive type `Value`
(strings, numbers, booleans, `null`, `undefined`, arrays, plain objects and
regular expressions); query and update documents are association lists of
field name to `Value`, mirroring JavaScript object key order.  The mutable
`placeholderCount` of the source is threaded explicitly through the clause
builders; the builders additionally return the final count, which in the
source is a local variable.  Recursion into `$or` sub-documents is organised
with an explicit fuel argument (seeded with a size measure that is provably
sufficient) so that every definition is structurally recursive and
kernel-computable.
-/

namespace PGStore

/-- Model of a JavaScript runtime value as used by the query builder.
A regular expression carries its `source` text (as JavaScript stores it,
with inner slashes escaped) and its flags. -/
inductive Value where
  | str (s : String)
  | num (n : Int)
  | bool (b : Bool)
  | null
  | undef
  | arr (elems : List Value)
  | obj (fields : List (String × Value))
  | regexp (source flags : String)

/-- A JavaScript object used as a query/update document or a record:
an association list in key order. -/
abbrev Record := List (String × Value)

/-- JavaScript truthiness: `false`, `0`, the empty string, `null` and
`undefined` are falsy, everything else (including empty arrays and objects)
is truthy. -/
def truthy : Value → Bool
  | .str s => s ≠ ""
  | .num n => n ≠ 0
  | .bool b => b
  | .null => false
  | .undef => false
  | .arr _ => true
  | .obj _ => true
  | .regexp _ _ => true

/-- First value bound to a key in an association list. -/
def lookupField : Record → String → Option Value
  | [], _ => none
  | (k, v) :: rest, key => if k = key then some v else lookupField rest key

/-- Optional-chaining member access `v?.key`: `undefined` unless `v` is an
object with the member present. -/
def jsGet (v : Value) (key : String) : Value :=
  match v with
  | .obj fields => (lookupField fields key).getD (.undef)
  | _ => (Value.undef)

/-- Strict equality of a value with a string literal (`v === "s"`). -/
def isStrEq (v : Value) (s : String) : Bool :=
  match v with
  | .str t => t = s
  | _ => false

/-- Strict equality with `null`. -/
def isNullV : Value → Bool
  | .null => true
  | _ => false

/-- Strict equality with `undefined`. -/
def isUndefV : Value → Bool
  | .undef => true
  | _ => false

/-- Source `isValueObject`: non-null and an array or of type `object`
(regular expressions have `typeof _ === "object"` in JavaScript). -/
def isValueObject : Value → Bool
  | .arr _ => true
  | .obj _ => true
  | .regexp _ _ => true
  | _ => false

/-- `Array.isArray`. -/
def isArrayV : Value → Bool
  | .arr _ => true
  | _ => false

/-- Join a list of strings with a separator, as `Array.prototype.join`. -/
def joinSep (sep : String) : List String → String
  | [] => ""
  | [x] => x
  | x :: xs => x ++ sep ++ joinSep sep xs

mutual

/-- Size measure for values, used to seed the recursion fuel of the clause
builders. -/
def valSize : Value → Nat
  | .arr xs => listSize xs + 1
  | .obj fs => fieldsSize fs + 1
  | _ => 1

/-- Size measure for value lists. -/
def listSize : List Value → Nat
  | [] => 1
  | x :: xs => valSize x + listSize xs + 1

/-- Size measure for documents. -/
def fieldsSize : List (String × Value) → Nat
  | [] => 1
  | (_, v) :: fs => valSize v + fieldsSize fs + 1

end

/-- JSON string escaping for one character, as `JSON.stringify` performs on
the characters appearing in this development. -/
def jsonQuoteChar (c : Char) : String :=
  if c = '"' then "\\\""
  else if c = '\\' then "\\\\"
  else if c = '\n' then "\\n"
  else if c = '\t' then "\\t"
  else if c = '\r' then "\\r"
  else String.singleton c

/-- A JSON string literal for `s`. -/
def jsonQuote (s : String) : String :=
  "\"" ++ String.join (s.data.map jsonQuoteChar) ++ "\""

mutual

/-- `JSON.stringify` on the modelled values.  `undefined` never reaches this
function at the top level in the source (it is only applied to composites);
inside arrays `undefined` serialises as `null`, inside objects the member is
skipped, and a regular expression serialises as the empty object. -/
def jsonStr : Value → String
  | .str s => jsonQuote s
  | .num n => toString n
  | .bool b => if b then "true" else "false"
  | .null => "null"
  | .undef => "undefined"
  | .arr xs => "[" ++ joinSep (",") (jsonArrElems xs) ++ "]"
  | .obj fs => "\x7b" ++ joinSep (",") (jsonObjMembers fs) ++ "\x7d"
  | .regexp _ _ => "\x7b\x7d"

/-- Serialised elements of a JSON array. -/
def jsonArrElems : List Value → List String
  | [] => []
  | .undef :: xs => "null" :: jsonArrElems xs
  | .regexp _ _ :: xs => "\x7b\x7d" :: jsonArrElems xs
  | x :: xs => jsonStr x :: jsonArrElems xs

/-- Serialised members of a JSON object. -/
def jsonObjMembers : List (String × Value) → List String
  | [] => []
  | (_, .undef) :: fs => jsonObjMembers fs
  | (k, .regexp _ _) :: fs => (jsonQuote k ++ ":\x7b\x7d") :: jsonObjMembers fs
  | (k, v) :: fs => (jsonQuote k ++ ":" ++ jsonStr v) :: jsonObjMembers fs

end

mutual

/-- JavaScript string coercion (template-literal interpolation). -/
def jsToString : Value → String
  | .str s => s
  | .num n => toString n
  | .bool b => if b then "true" else "false"
  | .null => "null"
  | .undef => "undefined"
  | .arr xs => joinSep (",") (jsArrElems xs)
  | .obj _ => "[object Object]"
  | .regexp src flags => "/" ++ src ++ "/" ++ flags

/-- Coerced elements of an array (`null`/`undefined` coerce to the empty
string inside `Array.prototype.toString`). -/
def jsArrElems : List Value → List String
  | [] => []
  | .null :: xs => "" :: jsArrElems xs
  | .undef :: xs => "" :: jsArrElems xs
  | x :: xs => jsToString x :: jsArrElems xs

end

/-- Removal of every `/` character, modelling
`value.toString().replace(/\//g, "")` from `normalizeValue`. -/
def stripAllSlashes (s : String) : String :=
  ⟨s.data.filter (fun c => c ≠ '/')⟩

/-- Source `normalizeValue`: a regular expression becomes its textual form
with every slash removed; arrays are JSON-serialised and rewritten into the
postgres array literal form by replacing the outer brackets with braces;
other composites are JSON-serialised; finally `undefined` collapses to
`null` (`value ?? null`). -/
def normalizeValue (value : Value) : Value :=
  let v1 : Value :=
    match value with
    | .regexp src flags => .str (stripAllSlashes ("/" ++ src ++ "/" ++ flags))
    | v => v
  let v2 : Value :=
    if isValueObject v1 then
      if isArrayV v1 then
        let j := jsonStr v1
        .str ("\x7b" ++ (⟨(j.data.drop 1).dropLast⟩ : String) ++ "\x7d")
      else .str (jsonStr v1)
    else v1
  match v2 with
  | .undef => .null
  | v => v

/-- Source `quote`: wrap in double quotes unless the identifier contains a
space, in which case it is returned unchanged. -/
def quote (f : String) : String :=
  if f.data.contains ' ' then f else "\"" ++ f ++ "\""

/-- Source `conditionalQuote`; `shouldQuote` models the ambient
`POSTGRES_SHOULD_QUOTE_FIELD_NAMES` environment toggle, which the source
reads afresh on every call and which we therefore pass as an argument. -/
def conditionalQuote (shouldQuote : Bool) (f : String) : String :=
  if shouldQuote then quote f else f

/-- Fuel-indexed replacement of every occurrence of `pat` (scanning left to
right, not rescanning the replacement), modelling
`String.prototype.replace` with a global literal pattern.  The fuel is
seeded with the string length, which suffices because each step consumes at
least one character. -/
def replaceAllFuel (pat rep : List Char) : Nat → List Char → List Char
  | 0, s => s
  | _ + 1, [] => []
  | fuel + 1, x :: xs =>
    if pat ≠ [] ∧ pat.isPrefixOf (x :: xs) then
      rep ++ replaceAllFuel pat rep fuel ((x :: xs).drop pat.length)
    else
      x :: replaceAllFuel pat rep fuel xs

/-- Replace every occurrence of `pat` in `s` by `rep`. -/
def replaceAllStr (s pat rep : String) : String :=
  ⟨replaceAllFuel pat.data rep.data s.data.length s.data⟩

/-- Split a character list at a separator character. -/
def splitOnCharAux (c : Char) : List Char → List Char → List (List Char)
  | [], acc => [acc.reverse]
  | x :: xs, acc =>
    if x = c then acc.reverse :: splitOnCharAux c xs []
    else splitOnCharAux c xs (x :: acc)

/-- `String.prototype.split` with a single-character separator. -/
def splitOnChar (s : String) (c : Char) : List String :=
  (splitOnCharAux c s.data []).map fun l => ⟨l⟩

/-- The default placeholder template of `buildEqualityClause`. -/
def defaultTemplate : String := "$\x7b\x7bcount\x7d\x7d"

/-- The placeholder template `buildEqualityClause` passes for `$push` keys. -/
def pushTemplate : String := "\"\x7b\x7bfieldName\x7d\x7d\" || ARRAY[$\x7b\x7bcount\x7d\x7d]"

/-- Placeholder texts `$c+1 … $c+n`, as generated for an `$in` list. -/
def phList (c n : Nat) : List String :=
  (List.range' (c + 1) n).map fun i => "$" ++ Nat.repr i

mutual

/-- Fuel-indexed form of the source `buildEqualityClause`.  The dispatch
order of the branches follows the source exactly: `$in`,
`$type === "string"` or `$exists`, `$regex`, `$lte`, `$lt`, `$gte`, `$gt`,
`$ne` (presence test), the `$or` key, the `$push` key, the `IS NULL` case,
then the default equality case with template substitution and dot-path
rewriting.  The first component of the result is the final
`placeholderCount`, a local variable in the source that callers there do
not observe.  A non-array `$or` value and a non-object `$push` value make
the source throw; those inputs are given a harmless result here and are
outside every theorem below.  Fuel `fieldsSize query` is always
sufficient. -/
def ecFuel (sq : Bool) : Nat → Record → Nat → String → Bool → Bool →
    Nat × List String × List Value
  | 0, _, c, _, _, _ => (c, [], [])
  | _ + 1, [], c, _, _, _ => (c, [], [])
  | fuel + 1, (k, value) :: rest, c, tmpl, isW, useNull =>
    let isNull := isNullV value && useNull
    let formattedK := conditionalQuote sq k
    let step : Nat × List String × List Value :=
      if truthy (jsGet value ("$in")) then
        match jsGet value ("$in") with
        | .arr elems =>
          (c + elems.length,
           [formattedK ++ " IN (" ++ joinSep (", ") (phList c elems.length) ++ ")"],
           elems.map normalizeValue)
        | _ => (c, [], [])
      else if isStrEq (jsGet value ("$type")) ("string") || truthy (jsGet value ("$exists")) then
        (c, [formattedK ++ " IS NOT NULL"], [])
      else if truthy (jsGet value ("$regex")) then
        (c + 1, [formattedK ++ " ~* $" ++ Nat.repr (c + 1)],
         [normalizeValue (jsGet value ("$regex"))])
      else if truthy (jsGet value ("$lte")) then
        (c + 1, [formattedK ++ " <= $" ++ Nat.repr (c + 1)],
         [normalizeValue (jsGet value ("$lte"))])
      else if truthy (jsGet value ("$lt")) then
        (c + 1, [formattedK ++ " < $" ++ Nat.repr (c + 1)],
         [normalizeValue (jsGet value ("$lt"))])
      else if truthy (jsGet value ("$gte")) then
        (c + 1, [formattedK ++ " >= $" ++ Nat.repr (c + 1)],
         [normalizeValue (jsGet value ("$gte"))])
      else if truthy (jsGet value ("$gt")) then
        (c + 1, [formattedK ++ " > $" ++ Nat.repr (c + 1)],
         [normalizeValue (jsGet value ("$gt"))])
      else if !isUndefV (jsGet value ("$ne")) then
        if isNullV (jsGet value ("$ne")) then (c, [formattedK ++ " IS NOT NULL"], [])
        else (c + 1, [formattedK ++ " != $" ++ Nat.repr (c + 1)],
              [normalizeValue (jsGet value ("$ne"))])
      else if k = "$or" then
        match value with
        | .arr subs =>
          let or1 := orFuel sq fuel subs c
          (c, ["(" ++ joinSep (" OR ") or1.1 ++ ")"], or1.2)
        | _ => (c, ["()"], [])
      else if k = "$push" then
        match value with
        | .obj subFields =>
          let sub := ecFuel sq fuel subFields c pushTemplate false true
          (c + 1, sub.2.1, sub.2.2)
        | _ => (c + 1, [], [])
      else if isNull || isUndefV value then
        (c, [formattedK ++ " IS NULL"], [])
      else
        let placeholder :=
          replaceAllStr (replaceAllStr tmpl ("\x7b\x7bcount\x7d\x7d") (Nat.repr (c + 1)))
            ("\x7b\x7bfieldName\x7d\x7d") k
        if k.data.contains '.' then
          let parts := splitOnChar k '.'
          let field := parts.headD ""
          let prop := parts.getD 1 ""
          if isW then
            (c + 1,
             [conditionalQuote sq (field ++ " ->> \x27" ++ prop ++ "\x27") ++ " = " ++ placeholder],
             [normalizeValue (.str (jsToString value))])
          else
            (c + 1,
             [conditionalQuote sq field ++ " = \"" ++ field ++ "\" || jsonb_build_object(\x27"
                ++ prop ++ "\x27, " ++ placeholder ++ "::text)"],
             [normalizeValue value])
        else
          (c + 1, [formattedK ++ " = " ++ placeholder], [normalizeValue value])
    let restRes := ecFuel sq fuel rest step.1 tmpl isW useNull
    (restRes.1, step.2.1 ++ restRes.2.1, step.2.2 ++ restRes.2.2)

/-- Fuel-indexed form of the source `buildSetClausFor$Or`: each sub-document
is built with the default options, the offset passed to a branch is the
incoming count plus the number of preceding branches
(`placeholderCount++` in the source), the final count of each branch is
discarded, and the clause and value lists of all branches are
concatenated. -/
def orFuel (sq : Bool) : Nat → List Value → Nat → List String × List Value
  | 0, _, _ => ([], [])
  | _ + 1, [], _ => ([], [])
  | fuel + 1, q :: rest, placeholderCount =>
    let branch :=
      match q with
      | .obj fields => ecFuel sq fuel fields placeholderCount defaultTemplate false true
      | _ => (placeholderCount, [], [])
    let restRes := orFuel sq fuel rest (placeholderCount + 1)
    (branch.2.1 ++ restRes.1, branch.2.2 ++ restRes.2)

end

/-- Source `buildEqualityClause` (with the final placeholder count also
returned; see `ecFuel`). -/
def buildEqualityClause (sq : Bool) (query : Record) (startingCount : Nat)
    (placeholderTemplate : String) (isBuildingWhere : Bool) (useIsNull : Bool) :
    Nat × List String × List Value :=
  ecFuel sq (fieldsSize query) query startingCount placeholderTemplate isBuildingWhere useIsNull

/-- Source `buildSetClausFor$Or`. -/
def buildSetClausForOr (sq : Bool) (value : List Value) (placeholderCount : Nat) :
    List String × List Value :=
  orFuel sq (listSize value) value placeholderCount

/-- A built query: SQL text plus the ordered bound values. -/
structure BuiltQuery where
  sql : String
  values : List Value

/-- Source `optionallyBuildWhere`: empty SQL and no values for an empty
document, otherwise ` WHERE ` followed by the clauses joined with
` AND `. -/
def optionallyBuildWhere (sq : Bool) (query : Record)
    (startingPlaceholderCount : Nat) : BuiltQuery :=
  match query with
  | [] => ⟨"", []⟩
  | _ =>
    let r := buildEqualityClause sq query startingPlaceholderCount defaultTemplate true true
    ⟨" WHERE " ++ joinSep (" AND ") r.2.1, r.2.2⟩

/-- One sort specification. -/
structure QuerySortField where
  field : String
  direction : String

/-- The options accepted by `find`. -/
structure QueryOptions where
  includeFields : Option (List String)
  limit : Option Int
  skip : Option Int
  sort : Option (List QuerySortField)

/-- Options object with no option set. -/
def emptyOptions : QueryOptions := ⟨none, none, none, none⟩

/-- Source `buildColumnListFromIncludeFields`: `*` without an include list,
otherwise the fields each passed through `quote` (unconditionally) and
joined with `, `. -/
def buildColumnListFromIncludeFields : Option (List String) → String
  | none => "*"
  | some fields => joinSep (", ") (fields.map quote)

/-- Source `optionallyBuildSkip`. -/
def optionallyBuildSkip : Option Int → String
  | some n => " OFFSET " ++ toString n
  | none => ""

/-- Source `optionallyBuildSort`. -/
def optionallyBuildSort (sq : Bool) : Option (List QuerySortField) → String
  | some sort =>
    " ORDER BY " ++ joinSep (", ")
      (sort.map fun s => conditionalQuote sq s.field ++ " " ++ (⟨s.direction.data.map Char.toUpper⟩ : String))
  | none => ""

/-- Source `optionallyBuildLimit`. -/
def optionallyBuildLimit : Option Int → String
  | some n => " LIMIT " ++ toString n
  | none => ""

/-- Source `buildTableName` (a `conditionalQuote` of the table name). -/
def buildTableName (sq : Bool) (tableName : String) : String :=
  conditionalQuote sq tableName

/-- Source `find`: `SELECT <columns> FROM <table>` followed by the optional
WHERE, OFFSET, ORDER BY and LIMIT parts, in that order. -/
def find (sq : Bool) (tableName : String) (query : Record)
    (options : Option QueryOptions) : BuiltQuery :=
  let opts := options.getD emptyOptions
  let fields := buildColumnListFromIncludeFields opts.includeFields
  let w := optionallyBuildWhere sq query 0
  ⟨"SELECT " ++ fields ++ " FROM " ++ buildTableName sq tableName ++ w.sql
     ++ optionallyBuildSkip opts.skip ++ optionallyBuildSort sq opts.sort
     ++ optionallyBuildLimit opts.limit,
   w.values⟩

/-- Source `update`: SET clauses from the update document starting at count
0 with null-matching disabled, then WHERE clauses from the query document
starting at the number of SET values, then optionally `RETURNING *`. -/
def update (sq : Bool) (tableName : String) (query : Record) (updates : Record)
    (shouldReturnUpdatedRecords : Bool) : BuiltQuery :=
  let r := buildEqualityClause sq updates 0 defaultTemplate false false
  let w := optionallyBuildWhere sq query r.2.2.length
  ⟨"UPDATE " ++ buildTableName sq tableName ++ " SET " ++ joinSep (", ") r.2.1 ++ w.sql
     ++ (if shouldReturnUpdatedRecords then " RETURNING *" else ""),
   r.2.2 ++ w.values⟩

/-- Source `delete`: `DELETE FROM <table>` plus the optional WHERE part; an
omitted query is replaced by the empty document (`query ?? {}`). -/
def delete (sq : Bool) (tableName : String) (query : Option Record) : BuiltQuery :=
  let w := optionallyBuildWhere sq (query.getD []) 0
  ⟨"DELETE FROM " ++ buildTableName sq tableName ++ w.sql, w.values⟩

/-- First-occurrence deduplication, as `Array.from(new Set(...))` performs
it: a JavaScript `Set` iterates in insertion order, so the first occurrence
of every element is kept. -/
def firstDedup : List String → List String
  | [] => []
  | x :: xs => x :: (firstDedup xs).filter (fun y => y ≠ x)

/-- Source `buildColumnListFromAllRecords`: the keys of all records
flattened in order with duplicates removed at the first occurrence
(`Array.from(new Set(…))`). -/
def buildColumnListFromAllRecords (records : List Record) : List String :=
  firstDedup (records.map (fun r => r.map Prod.fst)).flatten

/-- Source `fieldValueToSqlValue`: look the field up (yielding `undefined`
when absent, as JavaScript member access does) and normalise it. -/
def fieldValueToSqlValue (record : Record) (f : String) : Value :=
  normalizeValue ((lookupField record f).getD .undef)

/-- Placeholder cell for one (record, field) pair: `$n`, with `::json`
appended when the raw field value is a non-null object that is not an
array. -/
def cellPlaceholder (record : Record) (f : String) (n : Nat) : String :=
  "$" ++ Nat.repr n ++
    (if isValueObject ((lookupField record f).getD .undef)
        && !isArrayV ((lookupField record f).getD .undef) then "::json" else "")

/-- The inner `fields.forEach` loop of
`splitRecordsIntoFieldsPlaceholdersAndValues`: cells of one record in field
order, threading the running placeholder count. -/
def rowCells (record : Record) : List String → Nat → Nat × List String × List Value
  | [], c => (c, [], [])
  | f :: fs, c =>
    let rest := rowCells record fs (c + 1)
    (rest.1, cellPlaceholder record f (c + 1) :: rest.2.1,
     fieldValueToSqlValue record f :: rest.2.2)

/-- The outer `records.map` loop of
`splitRecordsIntoFieldsPlaceholdersAndValues`: one parenthesised
placeholder row per record, values in row-major order. -/
def rowsFor (fields : List String) : List Record → Nat → Nat × List String × List Value
  | [], c => (c, [], [])
  | r :: rs, c =>
    let row := rowCells r fields c
    let rest := rowsFor fields rs row.1
    (rest.1, ("(" ++ joinSep (", ") row.2.1 ++ ")") :: rest.2.1, row.2.2 ++ rest.2.2)

/-- Source `splitRecordsIntoFieldsPlaceholdersAndValues`. -/
def splitRecordsIntoFieldsPlaceholdersAndValues (records : List Record) :
    List String × List String × List Value :=
  let fields := buildColumnListFromAllRecords records
  let rows := rowsFor fields records 0
  (fields, rows.2.1, rows.2.2)

/-- Source `createWithoutReturning`: a multi-row INSERT over the union of
the records' fields. -/
def createWithoutReturning (sq : Bool) (tableName : String) (records : List Record) :
    BuiltQuery :=
  let split := splitRecordsIntoFieldsPlaceholdersAndValues records
  ⟨"INSERT INTO " ++ buildTableName sq tableName ++ " ("
     ++ joinSep (", ") (split.1.map (conditionalQuote sq)) ++ ") VALUES "
     ++ joinSep (", ") split.2.1,
   split.2.2⟩

/-- Source `create`: `createWithoutReturning` with ` RETURNING *`
appended. -/
def create (sq : Bool) (tableName : String) (records : List Record) : BuiltQuery :=
  let r := createWithoutReturning sq tableName records
  ⟨r.sql ++ " RETURNING *", r.values⟩

/-- JavaScript object spread `{...a, ...b}`: keys of `a` in order with
values overridden by `b` where present, followed by the keys of `b` not in
`a`. -/
def jsMerge (a b : Record) : Record :=
  (a.map fun kv => (kv.1, ((lookupField b kv.1).getD kv.2)))
    ++ b.filter (fun kv => (lookupField a kv.1).isNone)

/-- Source `upsert`: the INSERT of the merged record, `ON CONFLICT` over
the query's field list, the WHERE clauses of the query continuing the
placeholder count, `DO UPDATE SET` every update field to its excluded
value, and `RETURNING *`. -/
def upsert (sq : Bool) (tableName : String) (query : Record) (updates : Record) :
    BuiltQuery :=
  let cr := createWithoutReturning sq tableName [jsMerge query updates]
  let w := optionallyBuildWhere sq query cr.values.length
  let queryFields := buildColumnListFromAllRecords [query]
  let updateFields := buildColumnListFromAllRecords [updates]
  ⟨cr.sql ++ " ON CONFLICT (" ++ joinSep (", ") queryFields ++ ")" ++ w.sql
     ++ " DO UPDATE SET "
     ++ joinSep (", ") (updateFields.map fun f => f ++ " = EXCLUDED." ++ f)
     ++ " RETURNING *",
   cr.values ++ w.values⟩

/-- Source `generateIndexName` from `indexUtils.ts`.  The external
`normalizeIndex` helper of the data-stores package only extracts the
descriptor's field list, which this model therefore takes directly. -/
def generateIndexName (collection : String) (fields : List String) : String :=
  replaceAllStr
    (collection ++ "_" ++ joinSep ("_") (fields.map fun f => (⟨f.data.map Char.toLower⟩ : String))
       ++ "_index")
    (".") ("_")

/-- Emission helper of the placeholder scanner. -/
def scanEmit (acc : List Char) : List (List Char) :=
  if acc.isEmpty then [] else [acc.reverse]

/-- Scanner for positional placeholders: walks the character list and
collects every maximal digit run immediately following a `$`.  The second
argument holds the digits (reversed) of a run in progress. -/
def scanAux : List Char → Option (List Char) → List (List Char)
  | [], none => []
  | [], some acc => scanEmit acc
  | ch :: rest, none =>
    if ch = '$' then scanAux rest (some []) else scanAux rest none
  | ch :: rest, some acc =>
    if ch.isDigit then scanAux rest (some (ch :: acc))
    else if ch = '$' then scanEmit acc ++ scanAux rest (some [])
    else scanEmit acc ++ scanAux rest none

/-- The positional-placeholder occurrences of an SQL text, in order: every
maximal digit run immediately following a `$`, with the `$` included. -/
def placeholderOccurrences (s : String) : List String :=
  (scanAux s.data none).map fun l => ⟨'$' :: l⟩

/-- Expected placeholder digit runs for `a` placeholders following count
`c`. -/
def phChars (c a : Nat) : List (List Char) :=
  (List.range' (c + 1) a).map fun i => (Nat.repr i).data

/-- A field name free of the `$` marker (so it can neither be mistaken for
a placeholder by the scanner nor collide with the reserved `$or`/`$push`
keys). -/
def plainKey (k : String) : Bool :=
  !k.data.contains '$'

/-- A truthy `$in` member must be an array (otherwise the source throws on
`value.$in.map`). -/
def inGuard (value : Value) : Bool :=
  !truthy (jsGet value ("$in")) || isArrayV (jsGet value ("$in"))

/-- Does this field clause allocate exactly one placeholder (and bind
exactly one value) under the dispatch of `buildEqualityClause` with
null-matching enabled?  Mirrors the dispatch order of the source. -/
def allocOne (value : Value) : Bool :=
  if truthy (jsGet value ("$in")) then
    (match jsGet value ("$in") with
     | .arr elems => elems.length == 1
     | _ => false)
  else if isStrEq (jsGet value ("$type")) ("string") || truthy (jsGet value ("$exists")) then
    false
  else if truthy (jsGet value ("$regex")) then true
  else if truthy (jsGet value ("$lte")) then true
  else if truthy (jsGet value ("$lt")) then true
  else if truthy (jsGet value ("$gte")) then true
  else if truthy (jsGet value ("$gt")) then true
  else if !isUndefV (jsGet value ("$ne")) then !isNullV (jsGet value ("$ne"))
  else !(isNullV value || isUndefV value)

/-- A document consisting of exactly one plain-named field whose clause
allocates exactly one placeholder: the admissible shape of an `$or`
sub-document and of a `$push` document. -/
def unitDoc : Value → Bool
  | .obj [(f, w)] => plainKey f && allocOne w
  | _ => false

/-- A well-formed non-`$or` key of a document: a `$push` key carries a unit
document, any other key is plain with a guarded `$in`. -/
def wfKey (k : String) (value : Value) : Bool :=
  if k = "$push" then unitDoc value
  else plainKey k && inGuard value

/-- Well-formed documents: every key satisfies `wfKey`, except that the
final key may be `$or` over unit sub-documents. -/
def wfDoc : Record → Bool
  | [] => true
  | [(k, value)] =>
    if k = "$or" then
      (match value with
       | .arr subs => subs.all unitDoc
       | _ => false)
    else wfKey k value
  | (k, value) :: rest => wfKey k value && wfDoc rest

/-- The template substitution of the default branch of
`buildEqualityClause`: `{{count}}` first, then `{{fieldName}}`. -/
def substTemplate (tmpl : String) (n : Nat) (k : String) : String :=
  replaceAllStr (replaceAllStr tmpl ("\x7b\x7bcount\x7d\x7d") (Nat.repr n))
    ("\x7b\x7bfieldName\x7d\x7d") k

/-- A placeholder template whose substitution consists of exactly one
placeholder `$n` surrounded by `$`-free text that does not continue the
digit run. -/
def TmplOk (tmpl : String) : Prop :=
  ∀ n k, '$' ∉ k.data →
    ∃ A B, (substTemplate tmpl n k).data = A ++ '$' :: ((Nat.repr n).data ++ B) ∧
      '$' ∉ A ∧ '$' ∉ B ∧ ∀ d, B.head? = some d → d.isDigit = false

/-- The clause produced for one document key whose key is neither `$or`
nor `$push`: the dispatch of `buildEqualityClause` without the recursive
arms. -/
def keyStepPlain (sq : Bool) (k : String) (value : Value) (c : Nat)
    (tmpl : String) (isW u : Bool) : Nat × List String × List Value :=
  let isNull := isNullV value && u
  let formattedK := conditionalQuote sq k
  if truthy (jsGet value ("$in")) then
    match jsGet value ("$in") with
    | .arr elems =>
      (c + elems.length,
       [formattedK ++ " IN (" ++ joinSep (", ") (phList c elems.length) ++ ")"],
       elems.map normalizeValue)
    | _ => (c, [], [])
  else if isStrEq (jsGet value ("$type")) ("string") || truthy (jsGet value ("$exists")) then
    (c, [formattedK ++ " IS NOT NULL"], [])
  else if truthy (jsGet value ("$regex")) then
    (c + 1, [formattedK ++ " ~* $" ++ Nat.repr (c + 1)],
     [normalizeValue (jsGet value ("$regex"))])
  else if truthy (jsGet value ("$lte")) then
    (c + 1, [formattedK ++ " <= $" ++ Nat.repr (c + 1)],
     [normalizeValue (jsGet value ("$lte"))])
  else if truthy (jsGet value ("$lt")) then
    (c + 1, [formattedK ++ " < $" ++ Nat.repr (c + 1)],
     [normalizeValue (jsGet value ("$lt"))])
  else if truthy (jsGet value ("$gte")) then
    (c + 1, [formattedK ++ " >= $" ++ Nat.repr (c + 1)],
     [normalizeValue (jsGet value ("$gte"))])
  else if truthy (jsGet value ("$gt")) then
    (c + 1, [formattedK ++ " > $" ++ Nat.repr (c + 1)],
     [normalizeValue (jsGet value ("$gt"))])
  else if !isUndefV (jsGet value ("$ne")) then
    if isNullV (jsGet value ("$ne")) then (c, [formattedK ++ " IS NOT NULL"], [])
    else (c + 1, [formattedK ++ " != $" ++ Nat.repr (c + 1)],
          [normalizeValue (jsGet value ("$ne"))])
  else if isNull || isUndefV value then
    (c, [formattedK ++ " IS NULL"], [])
  else
    let placeholder := substTemplate tmpl (c + 1) k
    if k.data.contains '.' then
      let parts := splitOnChar k '.'
      let field := parts.headD ""
      let prop := parts.getD 1 ""
      if isW then
        (c + 1,
         [conditionalQuote sq (field ++ " ->> \x27" ++ prop ++ "\x27") ++ " = " ++ placeholder],
         [normalizeValue (.str (jsToString value))])
      else
        (c + 1,
         [conditionalQuote sq field ++ " = \"" ++ field ++ "\" || jsonb_build_object(\x27"
            ++ prop ++ "\x27, " ++ placeholder ++ "::text)"],
         [normalizeValue value])
    else
      (c + 1, [formattedK ++ " = " ++ placeholder], [normalizeValue value])

/-- The normalisation contract exactly as the specification words it: a
pattern yields its textual form with the enclosing delimiters stripped (the
inner text and the flags, inner slashes kept); the composite and
`undefined` cases are as in the source. -/
def normalizeValueSpecLiteral : Value → Value
  | .regexp src flags => .str (src ++ flags)
  | .arr xs =>
    .str ("\x7b" ++ (⟨((jsonStr (.arr xs)).data.drop 1).dropLast⟩ : String) ++ "\x7d")
  | .obj fs => .str (jsonStr (.obj fs))
  | .undef => .null
  | v => v

/-- The normalisation contract amended to what the source computes on
patterns: every `/` of the textual form is removed, which strips the
enclosing delimiters and also any slash inside the pattern text. -/
def normalizeValueSpecAmended : Value → Value
  | .regexp src flags => .str (stripAllSlashes ("/" ++ src ++ "/" ++ flags))
  | .arr xs =>
    .str ("\x7b" ++ (⟨((jsonStr (.arr xs)).data.drop 1).dropLast⟩ : String) ++ "\x7d")
  | .obj fs => .str (jsonStr (.obj fs))
  | .undef => .null
  | v => v

theorem one_le_valSize : ∀ v : Value, 1 ≤ valSize v := by
  intro v
  cases v <;> simp [valSize]

theorem one_le_listSize : ∀ l : List Value, 1 ≤ listSize l := by
  intro l
  cases l <;> simp [listSize]

theorem one_le_fieldsSize : ∀ fs : Record, 1 ≤ fieldsSize fs := by
  intro fs
  cases fs with
  | nil => simp [fieldsSize]
  | cons kv rest => cases kv; simp [fieldsSize]

theorem fieldsSize_cons (k : String) (v : Value) (fs : Record) :
    fieldsSize ((k, v) :: fs) = valSize v + fieldsSize fs + 1 := rfl

theorem ec_or_fuel_congr :
    ∀ f₁ : Nat,
      (∀ f₂ sq q c tmpl isW u, fieldsSize q ≤ f₁ → fieldsSize q ≤ f₂ →
        ecFuel sq f₁ q c tmpl isW u = ecFuel sq f₂ q c tmpl isW u)
      ∧ (∀ f₂ sq subs c, listSize subs ≤ f₁ → listSize subs ≤ f₂ →
        orFuel sq f₁ subs c = orFuel sq f₂ subs c) := by
  intro f₁
  induction f₁ using Nat.strong_induction_on with
  | _ f₁ ih =>
    constructor
    · intro f₂ sq q c tmpl isW u h₁ h₂
      match f₁, h₁ with
      | 0, h₁ =>
        exact absurd (le_trans (one_le_fieldsSize q) h₁) (by omega)
      | f + 1, h₁ =>
        match f₂, h₂ with
        | 0, h₂ =>
          exact absurd (le_trans (one_le_fieldsSize q) h₂) (by omega)
        | g + 1, h₂ =>
          match q with
          | [] => rfl
          | (k, value) :: rest =>
            have hrest : fieldsSize rest ≤ f ∧ fieldsSize rest ≤ g := by
              have hv := one_le_valSize value
              rw [fieldsSize_cons] at h₁ h₂
              omega
            have hstep : ∀ cc,
                ecFuel sq f rest cc tmpl isW u = ecFuel sq g rest cc tmpl isW u := by
              intro cc
              exact (ih f (by omega)).1 g sq rest cc tmpl isW u hrest.1 (hrest.2)
            simp only [ecFuel]
            cases value with
            | arr subs =>
              have hsubs : listSize subs ≤ f ∧ listSize subs ≤ g := by
                rw [fieldsSize_cons] at h₁ h₂
                have := one_le_fieldsSize rest
                simp [valSize] at h₁ h₂
                omega
              simp only [(ih f (by omega)).2 g sq subs c hsubs.1 hsubs.2, hstep]
            | obj subFields =>
              have hsub : fieldsSize subFields ≤ f ∧ fieldsSize subFields ≤ g := by
                rw [fieldsSize_cons] at h₁ h₂
                have := one_le_fieldsSize rest
                simp [valSize] at h₁ h₂
                omega
              simp only [(ih f (by omega)).1 g sq subFields c pushTemplate false true hsub.1
                hsub.2, hstep]
            | str s => simp only [hstep]
            | num n => simp only [hstep]
            | bool b => simp only [hstep]
            | null => simp only [hstep]
            | undef => simp only [hstep]
            | regexp src flags => simp only [hstep]
    · intro f₂ sq subs c h₁ h₂
      match f₁, h₁ with
      | 0, h₁ =>
        exact absurd (le_trans (one_le_listSize subs) h₁) (by omega)
      | f + 1, h₁ =>
        match f₂, h₂ with
        | 0, h₂ =>
          exact absurd (le_trans (one_le_listSize subs) h₂) (by omega)
        | g + 1, h₂ =>
          match subs with
          | [] => rfl
          | q :: rest =>
            have hq : valSize q ≤ f ∧ valSize q ≤ g ∧ listSize rest ≤ f ∧ listSize rest ≤ g := by
              simp [listSize] at h₁ h₂
              have := one_le_valSize q
              have := one_le_listSize rest
              omega
            have hrest : orFuel sq f rest (c + 1) = orFuel sq g rest (c + 1) :=
              (ih f (by omega)).2 g sq rest (c + 1) hq.2.2.1 hq.2.2.2
            simp only [orFuel]
            cases q with
            | obj fields =>
              have hf : fieldsSize fields ≤ f ∧ fieldsSize fields ≤ g := by
                simp [valSize] at hq
                omega
              simp only [(ih f (by omega)).1 g sq fields c defaultTemplate false true hf.1 hf.2,
                hrest]
            | str s => simp only [hrest]
            | num n => simp only [hrest]
            | bool b => simp only [hrest]
            | null => simp only [hrest]
            | undef => simp only [hrest]
            | arr l => simp only [hrest]
            | regexp src flags => simp only [hrest]

theorem ecFuel_eq_bec (sq : Bool) (fuel : Nat) (q : Record) (c : Nat) (tmpl : String)
    (isW u : Bool) (h : fieldsSize q ≤ fuel) :
    ecFuel sq fuel q c tmpl isW u = buildEqualityClause sq q c tmpl isW u :=
  (ec_or_fuel_congr fuel).1 (fieldsSize q) sq q c tmpl isW u h le_rfl

theorem orFuel_eq_orW (sq : Bool) (fuel : Nat) (subs : List Value) (c : Nat)
    (h : listSize subs ≤ fuel) :
    orFuel sq fuel subs c = buildSetClausForOr sq subs c :=
  (ec_or_fuel_congr fuel).2 (listSize subs) sq subs c h le_rfl

theorem scanAux_append_of_prefix_free :
    ∀ xs ys : List Char, '$' ∉ xs →
      scanAux (xs ++ ys) none = scanAux ys none := by
  intro xs
  induction xs with
  | nil => intro ys _; rfl
  | cons x xs ihx =>
    intro ys hx
    have hxne : x ≠ '$' := by
      intro h; exact hx (h ▸ List.mem_cons_self x xs)
    have hxs : '$' ∉ xs := fun h => hx (List.mem_cons_of_mem x h)
    simp only [List.cons_append, scanAux, if_neg hxne]
    exact ihx ys hxs

theorem scanAux_nil_of_free (xs : List Char) (h : '$' ∉ xs) :
    scanAux xs none = [] := by
  have h2 := scanAux_append_of_prefix_free xs [] h
  simpa using h2

theorem scanAux_append_of_head_not_digit :
    ∀ xs ys : List Char, (∀ d, ys.head? = some d → d.isDigit = false) →
      ∀ st, scanAux (xs ++ ys) st = scanAux xs st ++ scanAux ys none := by
  intro xs
  induction xs with
  | nil =>
    intro ys hy st
    cases st with
    | none => simp [scanAux]
    | some acc =>
      cases ys with
      | nil => simp [scanAux]
      | cons c rest =>
        have hcd : c.isDigit = false := hy c rfl
        by_cases hc : c = '$'
        · subst hc
          simp only [List.nil_append, scanAux, hcd, Bool.false_eq_true, if_false, if_pos rfl,
            if_true]
        · simp only [List.nil_append, scanAux, hcd, Bool.false_eq_true, if_false, if_neg hc]
  | cons x xs ihx =>
    intro ys hy st
    cases st with
    | none =>
      by_cases hx : x = '$'
      · subst hx
        simp only [List.cons_append, scanAux, if_pos rfl]
        exact ihx ys hy _
      · simp only [List.cons_append, scanAux, if_neg hx]
        exact ihx ys hy _
    | some acc =>
      by_cases hd : x.isDigit
      · simp only [List.cons_append, scanAux, if_pos hd]
        exact ihx ys hy _
      · have hd' : x.isDigit = false := by simpa using hd
        by_cases hx : x = '$'
        · subst hx
          simp only [List.cons_append, scanAux, hd', Bool.false_eq_true, if_false, if_pos rfl,
            if_true, List.append_eq]
          rw [ihx ys hy (some []), List.append_assoc]
        · simp only [List.cons_append, scanAux, hd', Bool.false_eq_true, if_false, if_neg hx,
            List.append_eq]
          rw [ihx ys hy none, List.append_assoc]

theorem scanAux_digit_run :
    ∀ ds acc, (∀ ch ∈ ds, ch.isDigit) → (acc ≠ [] ∨ ds ≠ []) →
      scanAux ds (some acc) = [acc.reverse ++ ds] := by
  intro ds
  induction ds with
  | nil =>
    intro acc _ hne
    have hacc : acc ≠ [] := by
      cases hne with
      | inl h => exact h
      | inr h => exact absurd rfl h
    simp [scanAux, scanEmit, hacc]
  | cons d ds ihd =>
    intro acc hdig _
    have hd : d.isDigit := hdig d (List.mem_cons_self d ds)
    simp only [scanAux, if_pos hd]
    rw [ihd (d :: acc) (fun ch hch => hdig ch (List.mem_cons_of_mem d hch)) (Or.inl (by simp))]
    simp

theorem digitChar_isDigit (m : Nat) (h : m < 10) : (Nat.digitChar m).isDigit = true := by
  interval_cases m <;> decide

theorem toDigitsCore_digits (b : Nat) (hb : b = 10) :
    ∀ fuel n acc, (∀ ch ∈ acc, ch.isDigit = true) →
      ∀ ch ∈ Nat.toDigitsCore b fuel n acc, ch.isDigit = true := by
  intro fuel
  induction fuel with
  | zero => intro n acc hacc; simpa [Nat.toDigitsCore] using hacc
  | succ fuel ih =>
    intro n acc hacc ch hch
    rw [Nat.toDigitsCore] at hch
    by_cases hz : n / b = 0
    · simp only [hz, if_true] at hch
      rcases List.mem_cons.mp hch with h | h
      · subst h hb
        exact digitChar_isDigit _ (Nat.mod_lt _ (by omega))
      · exact hacc ch h
    · simp only [hz, if_false] at hch
      refine ih (n / b) (Nat.digitChar (n % b) :: acc) ?_ ch hch
      intro c hc
      rcases List.mem_cons.mp hc with h | h
      · subst h hb
        exact digitChar_isDigit _ (Nat.mod_lt _ (by omega))
      · exact hacc c h

theorem toDigitsCore_ne_nil_of_acc (b : Nat) :
    ∀ fuel n acc, acc ≠ [] → Nat.toDigitsCore b fuel n acc ≠ [] := by
  intro fuel
  induction fuel with
  | zero => intro n acc hacc; simpa [Nat.toDigitsCore] using hacc
  | succ fuel ih =>
    intro n acc hacc
    rw [Nat.toDigitsCore]
    by_cases hz : n / b = 0
    · simp [hz]
    · simp only [hz, if_false]
      exact ih (n / b) _ (by simp)

theorem repr_data_digits (n : Nat) : ∀ ch ∈ (Nat.repr n).data, ch.isDigit = true := by
  intro ch hch
  have h2 : (Nat.repr n).data = Nat.toDigits 10 n := rfl
  rw [h2, Nat.toDigits] at hch
  exact toDigitsCore_digits 10 rfl (n + 1) n [] (by simp) ch hch

theorem repr_data_ne_nil (n : Nat) : (Nat.repr n).data ≠ [] := by
  have h2 : (Nat.repr n).data = Nat.toDigits 10 n := rfl
  rw [h2, Nat.toDigits, Nat.toDigitsCore]
  by_cases hz : n / 10 = 0
  · simp [hz]
  · simp only [hz, if_false]
    exact toDigitsCore_ne_nil_of_acc 10 n (n / 10) _ (by simp)

theorem dollar_not_mem_repr (n : Nat) : '$' ∉ (Nat.repr n).data := by
  intro h
  have := repr_data_digits n '$' h
  simp at this

theorem brace_not_mem_repr (n : Nat) : '\x7b' ∉ (Nat.repr n).data := by
  intro h
  have := repr_data_digits n '\x7b' h
  simp at this

theorem scanAux_digit_run_append (ds acc ys : List Char)
    (hds : ∀ ch ∈ ds, ch.isDigit = true)
    (hy : ∀ d, ys.head? = some d → d.isDigit = false)
    (hne : acc ≠ [] ∨ ds ≠ []) :
    scanAux (ds ++ ys) (some acc) = (acc.reverse ++ ds) :: scanAux ys none := by
  rw [scanAux_append_of_head_not_digit ds ys hy (some acc),
    scanAux_digit_run ds acc hds hne]
  rfl

theorem scanAux_placeholder (n : Nat) (ys : List Char)
    (hy : ∀ d, ys.head? = some d → d.isDigit = false) :
    scanAux (('$' :: (Nat.repr n).data) ++ ys) none
      = (Nat.repr n).data :: scanAux ys none := by
  have h1 : scanAux (('$' :: (Nat.repr n).data) ++ ys) none
      = scanAux ((Nat.repr n).data ++ ys) (some []) := by
    simp [scanAux]
  rw [h1, scanAux_digit_run_append _ _ _ (repr_data_digits n) hy (Or.inr (repr_data_ne_nil n))]
  rfl

theorem scan_single_ph (A B : List Char) (n : Nat) (hA : '$' ∉ A) (hB : '$' ∉ B)
    (hBhead : ∀ d, B.head? = some d → d.isDigit = false) :
    scanAux (A ++ '$' :: ((Nat.repr n).data ++ B)) none = [(Nat.repr n).data] := by
  rw [scanAux_append_of_prefix_free A _ hA]
  have h1 : ('$' :: ((Nat.repr n).data ++ B)) = ('$' :: (Nat.repr n).data) ++ B := by simp
  rw [h1, scanAux_placeholder n B hBhead, scanAux_nil_of_free B hB]


theorem replaceAllFuel_cons_of_no_match_head (pat rep : List Char) (x : Char) (xs : List Char)
    (fuel : Nat) (h : pat.isPrefixOf (x :: xs) = false) :
    replaceAllFuel pat rep (fuel + 1) (x :: xs) = x :: replaceAllFuel pat rep fuel xs := by
  simp [replaceAllFuel, h]

theorem replaceAllFuel_no_match (pat rep : List Char) (p : Char)
    (hpat : pat.head? = some p) :
    ∀ fuel s, p ∉ s → replaceAllFuel pat rep fuel s = s := by
  intro fuel
  induction fuel with
  | zero => intro s _; rfl
  | succ fuel ih =>
    intro s hs
    cases s with
    | nil => rfl
    | cons x xs =>
      have hpx : p ≠ x := by
        intro h; exact hs (h ▸ List.mem_cons_self x xs)
      have hpre : pat.isPrefixOf (x :: xs) = false := by
        cases pat with
        | nil => simp at hpat
        | cons a as =>
          have ha : a = p := by simp at hpat; exact hpat
          subst ha
          simp [List.isPrefixOf_cons₂, hpx]
      rw [replaceAllFuel_cons_of_no_match_head pat rep x xs fuel hpre,
        ih xs (fun h => hs (List.mem_cons_of_mem x h))]

theorem replaceAllFuel_skips_free (pat rep : List Char) (p : Char)
    (hpat : pat.head? = some p) :
    ∀ pre suf fuel, p ∉ pre → pre.length ≤ fuel →
      replaceAllFuel pat rep fuel (pre ++ suf)
        = pre ++ replaceAllFuel pat rep (fuel - pre.length) suf := by
  intro pre
  induction pre with
  | nil => intro suf fuel _ _; simp
  | cons x xs ihx =>
    intro suf fuel hp hlen
    have hpx : p ≠ x := by
      intro h; exact hp (h ▸ List.mem_cons_self x xs)
    have hpre : pat.isPrefixOf (x :: (xs ++ suf)) = false := by
      cases pat with
      | nil => simp at hpat
      | cons a as =>
        have ha : a = p := by simp at hpat; exact hpat
        subst ha
        simp [List.isPrefixOf_cons₂, hpx]
    match fuel, hlen with
    | fuel + 1, hlen =>
      have heq : fuel + 1 - (x :: xs).length = fuel - xs.length := by
        simp only [List.length_cons]
        omega
      rw [List.cons_append, replaceAllFuel_cons_of_no_match_head pat rep x (xs ++ suf) fuel hpre,
        ihx suf fuel (fun h => hp (List.mem_cons_of_mem x h)) (by simpa using hlen), heq]
      simp

theorem isPrefixOf_self_append (l t : List Char) : l.isPrefixOf (l ++ t) = true := by
  induction l with
  | nil => simp
  | cons a as ih => simp [List.isPrefixOf_cons₂, ih]

theorem replaceAllFuel_match (pat rep : List Char) (fuel : Nat) (suf : List Char)
    (hpat : pat ≠ []) :
    replaceAllFuel pat rep (fuel + 1) (pat ++ suf)
      = rep ++ replaceAllFuel pat rep fuel suf := by
  cases pat with
  | nil => exact absurd rfl hpat
  | cons a as =>
    have h1 : (a :: as).isPrefixOf (a :: (as ++ suf)) = true := by
      have h2 := isPrefixOf_self_append (a :: as) suf
      rw [List.cons_append] at h2
      exact h2
    rw [List.cons_append, replaceAllFuel, if_pos ⟨List.cons_ne_nil a as, h1⟩]
    have h3 : (a :: (as ++ suf)).drop (a :: as).length = suf := by
      simp only [List.length_cons, List.drop_succ_cons]
      exact List.drop_left as suf
    rw [h3]

theorem subst_default (n : Nat) (k : String) :
    substTemplate defaultTemplate n k = ⟨'$' :: (Nat.repr n).data⟩ := by
  have stage1 : replaceAllStr defaultTemplate ("\x7b\x7bcount\x7d\x7d") (Nat.repr n)
      = ⟨'$' :: ((Nat.repr n).data ++ [])⟩ := rfl
  have hbrace : '\x7b' ∉ '$' :: (Nat.repr n).data := by
    intro h
    rcases List.mem_cons.mp h with h | h
    · simp at h
    · exact brace_not_mem_repr n h
  rw [substTemplate, stage1]
  show (⟨replaceAllFuel ("\x7b\x7bfieldName\x7d\x7d").data k.data
    ('$' :: ((Nat.repr n).data ++ [])).length ('$' :: ((Nat.repr n).data ++ []))⟩ : String) = _
  rw [List.append_nil]
  rw [replaceAllFuel_no_match ("\x7b\x7bfieldName\x7d\x7d").data k.data '\x7b' rfl _ _ hbrace]



theorem subst_push_data (n : Nat) (k : String) :
    (substTemplate pushTemplate n k).data
      = ('"' :: (k.data ++ ("\" || ARRAY[").data)) ++ '$' :: ((Nat.repr n).data ++ [']']) := by
  have stage1 : replaceAllStr pushTemplate ("\x7b\x7bcount\x7d\x7d") (Nat.repr n)
      = ⟨("\"\x7b\x7bfieldName\x7d\x7d\" || ARRAY[$").data ++ ((Nat.repr n).data ++ [']'])⟩ :=
    rfl
  rw [substTemplate, stage1]
  have hrest : '\x7b' ∉ ("\" || ARRAY[$").data ++ ((Nat.repr n).data ++ [']']) := by
    intro h
    rcases List.mem_append.mp h with h | h
    · revert h; decide
    · rcases List.mem_append.mp h with h | h
      · exact brace_not_mem_repr n h
      · revert h; decide
  have hsplit : (("\"\x7b\x7bfieldName\x7d\x7d\" || ARRAY[$").data
        ++ ((Nat.repr n).data ++ [']']))
      = ['"'] ++ (("\x7b\x7bfieldName\x7d\x7d").data
        ++ (("\" || ARRAY[$").data ++ ((Nat.repr n).data ++ [']']))) := rfl
  show (⟨replaceAllFuel ("\x7b\x7bfieldName\x7d\x7d").data k.data _ _⟩ : String).data = _
  rw [hsplit]
  have hlen : (['"'] ++ (("\x7b\x7bfieldName\x7d\x7d").data
        ++ (("\" || ARRAY[$").data ++ ((Nat.repr n).data ++ [']'])))).length
      = ((25 + (Nat.repr n).data.length) + 1) + 1 := by
    simp
    omega
  rw [hlen,
    replaceAllFuel_skips_free ("\x7b\x7bfieldName\x7d\x7d").data k.data '\x7b' rfl ['"'] _
      (((25 + (Nat.repr n).data.length) + 1) + 1) (by decide) (by simp)]
  have h2 : ((25 + (Nat.repr n).data.length) + 1) + 1 - (['"'] : List Char).length
      = (25 + (Nat.repr n).data.length) + 1 := by simp
  rw [h2,
    replaceAllFuel_match ("\x7b\x7bfieldName\x7d\x7d").data k.data
      (25 + (Nat.repr n).data.length) _ (by decide),
    replaceAllFuel_no_match ("\x7b\x7bfieldName\x7d\x7d").data k.data '\x7b' rfl _ _ hrest]
  have hmid : ("\" || ARRAY[$").data = ("\" || ARRAY[").data ++ ['$'] := rfl
  rw [hmid]
  simp

theorem tmplOk_default : TmplOk defaultTemplate := by
  intro n k _
  refine ⟨[], [], ?_, by simp, by simp, by simp⟩
  rw [subst_default]
  simp

theorem tmplOk_push : TmplOk pushTemplate := by
  intro n k hk
  refine ⟨'"' :: (k.data ++ ("\" || ARRAY[").data), [']'], ?_, ?_, by simp, by simp⟩
  · rw [subst_push_data]
  · intro h
    rcases List.mem_cons.mp h with h | h
    · simp at h
    · rcases List.mem_append.mp h with h | h
      · exact hk h
      · revert h; decide



theorem bec_nil (sq : Bool) (c : Nat) (tmpl : String) (isW u : Bool) :
    buildEqualityClause sq [] c tmpl isW u = (c, [], []) := rfl

theorem orW_nil (sq : Bool) (c : Nat) : buildSetClausForOr sq [] c = ([], []) := rfl

theorem bec_cons_plain (sq : Bool) (k : String) (value : Value) (rest : Record)
    (c : Nat) (tmpl : String) (isW u : Bool) (hk₁ : k ≠ "$or") (hk₂ : k ≠ "$push") :
    buildEqualityClause sq ((k, value) :: rest) c tmpl isW u =
      ((buildEqualityClause sq rest (keyStepPlain sq k value c tmpl isW u).1 tmpl isW u).1,
       (keyStepPlain sq k value c tmpl isW u).2.1
         ++ (buildEqualityClause sq rest (keyStepPlain sq k value c tmpl isW u).1 tmpl isW u).2.1,
       (keyStepPlain sq k value c tmpl isW u).2.2
         ++ (buildEqualityClause sq rest (keyStepPlain sq k value c tmpl isW u).1 tmpl isW u).2.2) := by
  have hfs : fieldsSize ((k, value) :: rest) = (valSize value + fieldsSize rest) + 1 := rfl
  have hrest : ∀ cc, ecFuel sq (valSize value + fieldsSize rest) rest cc tmpl isW u
      = buildEqualityClause sq rest cc tmpl isW u := by
    intro cc
    exact ecFuel_eq_bec sq _ rest cc tmpl isW u (by have := one_le_valSize value; omega)
  show ecFuel sq (fieldsSize ((k, value) :: rest)) ((k, value) :: rest) c tmpl isW u = _
  rw [hfs]
  simp only [ecFuel, if_neg hk₁, if_neg hk₂, hrest, keyStepPlain, substTemplate, replaceAllStr]

theorem bec_cons_or (sq : Bool) (subs : List Value) (rest : Record)
    (c : Nat) (tmpl : String) (isW u : Bool) :
    buildEqualityClause sq (("$or", .arr subs) :: rest) c tmpl isW u =
      ((buildEqualityClause sq rest c tmpl isW u).1,
       ("(" ++ joinSep (" OR ") (buildSetClausForOr sq subs c).1 ++ ")")
         :: (buildEqualityClause sq rest c tmpl isW u).2.1,
       (buildSetClausForOr sq subs c).2 ++ (buildEqualityClause sq rest c tmpl isW u).2.2) := by
  have hfs : fieldsSize (("$or", Value.arr subs) :: rest)
      = ((listSize subs + 1) + fieldsSize rest) + 1 := rfl
  have hrest : ∀ cc, ecFuel sq ((listSize subs + 1) + fieldsSize rest) rest cc tmpl isW u
      = buildEqualityClause sq rest cc tmpl isW u := by
    intro cc
    exact ecFuel_eq_bec sq _ rest cc tmpl isW u (by omega)
  have hor : orFuel sq ((listSize subs + 1) + fieldsSize rest) subs c
      = buildSetClausForOr sq subs c :=
    orFuel_eq_orW sq _ subs c (by have := one_le_fieldsSize rest; omega)
  show ecFuel sq (fieldsSize (("$or", Value.arr subs) :: rest))
    (("$or", Value.arr subs) :: rest) c tmpl isW u = _
  rw [hfs]
  simp only [ecFuel, jsGet, truthy, isStrEq, isUndefV, isNullV, hrest, hor]
  simp

theorem plainKey_not_mem (k : String) (h : plainKey k = true) : '$' ∉ k.data := by
  simp only [plainKey, Bool.not_eq_true'] at h
  intro hmem
  have h2 : k.data.contains '$' = true :=
    List.contains_iff_exists_mem_beq.mpr ⟨'$', hmem, rfl⟩
  rw [h2] at h
  cases h

theorem lookupField_dollar_none (fields : Record)
    (hplain : fields.all (fun kv => plainKey kv.1) = true)
    (key : String) (hkey : '$' ∈ key.data) : lookupField fields key = none := by
  induction fields with
  | nil => rfl
  | cons kv rest ih =>
    rcases kv with ⟨k, v⟩
    simp only [List.all_cons, Bool.and_eq_true] at hplain
    have hk : k ≠ key := by
      intro h
      subst h
      exact plainKey_not_mem k hplain.1 hkey
    simp only [lookupField, if_neg hk]
    exact ih hplain.2

theorem jsGet_plain_dollar (fields : Record)
    (hplain : fields.all (fun kv => plainKey kv.1) = true)
    (key : String) (hkey : '$' ∈ key.data) : jsGet (.obj fields) key = .undef := by
  simp [jsGet, lookupField_dollar_none fields hplain key hkey]

theorem bec_cons_push (sq : Bool) (fields : Record) (rest : Record)
    (c : Nat) (tmpl : String) (isW u : Bool)
    (hplain : fields.all (fun kv => plainKey kv.1) = true) :
    buildEqualityClause sq (("$push", .obj fields) :: rest) c tmpl isW u =
      ((buildEqualityClause sq rest (c + 1) tmpl isW u).1,
       (buildEqualityClause sq fields c pushTemplate false true).2.1
         ++ (buildEqualityClause sq rest (c + 1) tmpl isW u).2.1,
       (buildEqualityClause sq fields c pushTemplate false true).2.2
         ++ (buildEqualityClause sq rest (c + 1) tmpl isW u).2.2) := by
  have hfs : fieldsSize (("$push", Value.obj fields) :: rest)
      = ((fieldsSize fields + 1) + fieldsSize rest) + 1 := rfl
  have hrest : ∀ cc, ecFuel sq ((fieldsSize fields + 1) + fieldsSize rest) rest cc tmpl isW u
      = buildEqualityClause sq rest cc tmpl isW u := by
    intro cc
    exact ecFuel_eq_bec sq _ rest cc tmpl isW u (by omega)
  have hsub : ecFuel sq ((fieldsSize fields + 1) + fieldsSize rest) fields c
        pushTemplate false true
      = buildEqualityClause sq fields c pushTemplate false true :=
    ecFuel_eq_bec sq _ fields c pushTemplate false true (by have := one_le_fieldsSize rest; omega)
  have hin := jsGet_plain_dollar fields hplain ("$in") (by decide)
  have hty := jsGet_plain_dollar fields hplain ("$type") (by decide)
  have hex := jsGet_plain_dollar fields hplain ("$exists") (by decide)
  have hre := jsGet_plain_dollar fields hplain ("$regex") (by decide)
  have hle := jsGet_plain_dollar fields hplain ("$lte") (by decide)
  have hlt := jsGet_plain_dollar fields hplain ("$lt") (by decide)
  have hge := jsGet_plain_dollar fields hplain ("$gte") (by decide)
  have hgt := jsGet_plain_dollar fields hplain ("$gt") (by decide)
  have hne := jsGet_plain_dollar fields hplain ("$ne") (by decide)
  show ecFuel sq (fieldsSize (("$push", Value.obj fields) :: rest))
    (("$push", Value.obj fields) :: rest) c tmpl isW u = _
  rw [hfs]
  simp only [ecFuel, hin, hty, hex, hre, hle, hlt, hge, hgt, hne, truthy, isStrEq, isUndefV,
    isNullV, hrest, hsub]
  simp

theorem orW_cons_obj (sq : Bool) (fields : Record) (rest : List Value) (c : Nat) :
    buildSetClausForOr sq (.obj fields :: rest) c =
      ((buildEqualityClause sq fields c defaultTemplate false true).2.1
         ++ (buildSetClausForOr sq rest (c + 1)).1,
       (buildEqualityClause sq fields c defaultTemplate false true).2.2
         ++ (buildSetClausForOr sq rest (c + 1)).2) := by
  have hls : listSize (Value.obj fields :: rest)
      = ((fieldsSize fields + 1) + listSize rest) + 1 := rfl
  have hrest : orFuel sq ((fieldsSize fields + 1) + listSize rest) rest (c + 1)
      = buildSetClausForOr sq rest (c + 1) :=
    orFuel_eq_orW sq _ rest (c + 1) (by have := one_le_fieldsSize fields; omega)
  have hsub : ecFuel sq ((fieldsSize fields + 1) + listSize rest) fields c
        defaultTemplate false true
      = buildEqualityClause sq fields c defaultTemplate false true :=
    ecFuel_eq_bec sq _ fields c defaultTemplate false true (by have := one_le_listSize rest; omega)
  show orFuel sq (listSize (Value.obj fields :: rest)) (Value.obj fields :: rest) c = _
  rw [hls]
  simp only [orFuel, hrest, hsub]



theorem quote_free (f : String) (h : '$' ∉ f.data) : '$' ∉ (quote f).data := by
  rw [quote]
  split
  · exact h
  · intro hmem
    simp only [String.data_append] at hmem
    rcases List.mem_append.mp hmem with h1 | h1
    · rcases List.mem_append.mp h1 with h2 | h2
      · revert h2; decide
      · exact h h2
    · revert h1; decide

theorem conditionalQuote_free (sq : Bool) (f : String) (h : '$' ∉ f.data) :
    '$' ∉ (conditionalQuote sq f).data := by
  cases sq
  · simpa [conditionalQuote] using h
  · simpa [conditionalQuote] using quote_free f h

theorem scan_tail_ph (A : List Char) (n : Nat) (hA : '$' ∉ A) :
    scanAux (A ++ '$' :: (Nat.repr n).data) none = [(Nat.repr n).data] := by
  rw [scanAux_append_of_prefix_free A _ hA]
  have h1 : scanAux ('$' :: (Nat.repr n).data) none
      = scanAux (Nat.repr n).data (some []) := by
    simp [scanAux]
  rw [h1, scanAux_digit_run _ _ (repr_data_digits n) (Or.inr (repr_data_ne_nil n))]
  rfl

theorem phChars_zero (c : Nat) : phChars c 0 = [] := rfl

theorem phChars_one (c : Nat) : phChars c 1 = [(Nat.repr (c + 1)).data] := rfl

theorem phChars_succ (c a : Nat) :
    phChars c (a + 1) = (Nat.repr (c + 1)).data :: phChars (c + 1) a := by
  simp [phChars, List.range'_succ]

theorem phChars_append (c a b : Nat) :
    phChars c a ++ phChars (c + a) b = phChars c (a + b) := by
  simp only [phChars]
  rw [← List.map_append]
  congr 1
  rw [show c + a + 1 = c + 1 + a from by omega]
  rw [List.range'_append_1 (c + 1) a b]
  congr 1
  omega

theorem head_not_digit_append (B C : List Char)
    (hB : ∀ d, B.head? = some d → d.isDigit = false)
    (hC : ∀ d, C.head? = some d → d.isDigit = false) :
    ∀ d, (B ++ C).head? = some d → d.isDigit = false := by
  intro d hd
  cases B with
  | nil => exact hC d (by simpa using hd)
  | cons b bs => exact hB d (by simpa using hd)

theorem phList_succ (c m : Nat) :
    phList c (m + 1) = ("$" ++ Nat.repr (c + 1)) :: phList (c + 1) m := by
  simp [phList, List.range'_succ]

theorem scan_phList_append :
    ∀ m c ys, (∀ d, ys.head? = some d → d.isDigit = false) →
      scanAux ((joinSep (", ") (phList c m)).data ++ ys) none
        = phChars c m ++ scanAux ys none := by
  intro m
  induction m with
  | zero =>
    intro c ys hy
    simp [phList, joinSep, phChars]
  | succ m ihm =>
    intro c ys hy
    rw [phList_succ]
    cases m with
    | zero =>
      have h0 : phList (c + 1) 0 = [] := rfl
      rw [h0]
      have hdata : (joinSep (", ") [("$" ++ Nat.repr (c + 1))]).data
          = '$' :: (Nat.repr (c + 1)).data := rfl
      rw [hdata, scanAux_placeholder (c + 1) ys hy, phChars_one]
      rfl
    | succ m' =>
      have hjoin : joinSep (", ") (("$" ++ Nat.repr (c + 1)) :: phList (c + 1) (m' + 1))
          = ("$" ++ Nat.repr (c + 1)) ++ (", ") ++ joinSep (", ") (phList (c + 1) (m' + 1)) := by
        rw [phList_succ]
        rfl
      rw [hjoin]
      have hys2 : ∀ d, ((", ").data
            ++ ((joinSep (", ") (phList (c + 1) (m' + 1))).data ++ ys)).head? = some d →
          d.isDigit = false := by
        intro d hd
        have hcons : ((", ").data
              ++ ((joinSep (", ") (phList (c + 1) (m' + 1))).data ++ ys))
            = ',' :: (' ' :: ((joinSep (", ") (phList (c + 1) (m' + 1))).data ++ ys)) := rfl
        rw [hcons] at hd
        simp only [List.head?_cons, Option.some.injEq] at hd
        subst hd
        decide
      have hdata : (("$" ++ Nat.repr (c + 1)) ++ (", ")
            ++ joinSep (", ") (phList (c + 1) (m' + 1))).data ++ ys
          = ('$' :: (Nat.repr (c + 1)).data)
            ++ ((", ").data ++ ((joinSep (", ") (phList (c + 1) (m' + 1))).data ++ ys)) := by
        simp [List.append_assoc]
      rw [hdata, scanAux_placeholder (c + 1) _ hys2,
        scanAux_append_of_prefix_free ((", ").data) _ (by decide),
        ihm (c + 1) ys hy, phChars_succ]
      rfl




theorem splitOnCharAux_chars (c : Char) :
    ∀ l acc part, part ∈ splitOnCharAux c l acc → ∀ ch ∈ part, ch ∈ l ∨ ch ∈ acc := by
  intro l
  induction l with
  | nil =>
    intro acc part hpart ch hch
    simp only [splitOnCharAux, List.mem_singleton] at hpart
    subst hpart
    right
    exact List.mem_reverse.mp hch
  | cons x xs ihx =>
    intro acc part hpart ch hch
    by_cases hx : x = c
    · simp only [splitOnCharAux, if_pos hx, List.mem_cons] at hpart
      rcases hpart with h | h
      · subst h
        right
        exact List.mem_reverse.mp hch
      · rcases ihx [] part h ch hch with h2 | h2
        · left; exact List.mem_cons_of_mem x h2
        · cases h2
    · simp only [splitOnCharAux, if_neg hx] at hpart
      rcases ihx (x :: acc) part hpart ch hch with h2 | h2
      · left; exact List.mem_cons_of_mem x h2
      · rcases List.mem_cons.mp h2 with h3 | h3
        · left; subst h3; exact List.mem_cons_self ch xs
        · right; exact h3

theorem splitOnChar_chars (s : String) (c : Char) (part : String)
    (h : part ∈ splitOnChar s c) : ∀ ch ∈ part.data, ch ∈ s.data := by
  intro ch hch
  simp only [splitOnChar, List.mem_map] at h
  obtain ⟨l, hl, hpart⟩ := h
  subst hpart
  rcases splitOnCharAux_chars c s.data [] l hl ch hch with h2 | h2
  · exact h2
  · cases h2

theorem dollar_free_headD (k : String) (hk : '$' ∉ k.data) :
    '$' ∉ ((splitOnChar k '.').headD "").data := by
  cases h : splitOnChar k '.' with
  | nil => simp
  | cons p ps =>
    simp only [List.headD_cons]
    intro hmem
    exact hk (splitOnChar_chars k '.' p (h ▸ List.mem_cons_self p ps) '$' hmem)

theorem dollar_free_getD (k : String) (hk : '$' ∉ k.data) (i : Nat) :
    '$' ∉ ((splitOnChar k '.').getD i "").data := by
  rw [List.getD]
  rcases h : (splitOnChar k '.').get? i with _ | p
  · simp
  · have hp : p ∈ splitOnChar k '.' := List.get?_mem h
    simp only [Option.getD_some]
    intro hmem
    exact hk (splitOnChar_chars k '.' p hp '$' hmem)


theorem scan_free_clause (cl : String) (h : '$' ∉ cl.data) :
    scanAux cl.data none = phChars c 0 :=
  scanAux_nil_of_free cl.data h

theorem mem_append_decomp {x : Char} {A B : List Char} (h : x ∈ A ++ B) :
    x ∈ A ∨ x ∈ B := List.mem_append.mp h

theorem inGuard_arr (value : Value) (h1 : truthy (jsGet value ("$in")) = true)
    (hin : inGuard value = true) : ∃ elems, jsGet value ("$in") = .arr elems := by
  rw [inGuard, Bool.or_eq_true] at hin
  rcases hin with hfalsy | harr
  · rw [h1] at hfalsy
    simp at hfalsy
  · cases hjs : jsGet value ("$in") with
    | arr elems => exact ⟨elems, rfl⟩
    | str s => simp only [hjs, isArrayV, Bool.false_eq_true] at harr
    | num n => simp only [hjs, isArrayV, Bool.false_eq_true] at harr
    | bool b => simp only [hjs, isArrayV, Bool.false_eq_true] at harr
    | null => simp only [hjs, isArrayV, Bool.false_eq_true] at harr
    | undef => simp only [hjs, isArrayV, Bool.false_eq_true] at harr
    | obj fs => simp only [hjs, isArrayV, Bool.false_eq_true] at harr
    | regexp src flags => simp only [hjs, isArrayV, Bool.false_eq_true] at harr

theorem keyStepPlain_spec (sq : Bool) (k : String) (value : Value) (c : Nat)
    (tmpl : String) (isW u : Bool) (htmpl : TmplOk tmpl)
    (hk : plainKey k = true) (hin : inGuard value = true) :
    ∃ a cl vals, keyStepPlain sq k value c tmpl isW u = (c + a, [cl], vals)
      ∧ vals.length = a
      ∧ scanAux cl.data none = phChars c a
      ∧ (u = true → allocOne value = true → a = 1) := by
  have hkfree : '$' ∉ k.data := plainKey_not_mem k hk
  have hK : '$' ∉ (conditionalQuote sq k).data := conditionalQuote_free sq k hkfree
  cases h1 : truthy (jsGet value ("$in")) with
  | true =>
    obtain ⟨elems, hjs⟩ := inGuard_arr value h1 hin
    refine ⟨elems.length,
      conditionalQuote sq k ++ " IN (" ++ joinSep (", ") (phList c elems.length) ++ ")",
      elems.map normalizeValue, ?_, by simp, ?_, ?_⟩
    · simp [keyStepPlain, hjs, truthy]
    · have hdata : ((conditionalQuote sq k ++ " IN ("
            ++ joinSep (", ") (phList c elems.length) ++ ")")).data
          = ((conditionalQuote sq k).data ++ (" IN (").data)
            ++ ((joinSep (", ") (phList c elems.length)).data ++ [')']) := by
        simp [List.append_assoc]
      rw [hdata,
        scanAux_append_of_prefix_free _ _ (by
          intro hmem
          rcases mem_append_decomp hmem with h2 | h2
          · exact hK h2
          · revert h2; decide),
        scan_phList_append elems.length c [')'] (by intro d hd; simp at hd; subst hd; decide)]
      simp [scanAux]
    · intro _ hal
      simp [allocOne, hjs, truthy] at hal
      exact hal
  | false =>
  cases h2 : (isStrEq (jsGet value ("$type")) ("string") || truthy (jsGet value ("$exists"))) with
  | true =>
    refine ⟨0, conditionalQuote sq k ++ " IS NOT NULL", [], ?_, rfl, ?_, ?_⟩
    · simp [keyStepPlain, h1, h2]
    · refine scan_free_clause _ ?_
      intro hmem
      simp only [String.data_append] at hmem
      rcases mem_append_decomp hmem with h3 | h3
      · exact hK h3
      · revert h3; decide
    · intro _ hal
      simp [allocOne, h1, h2] at hal
  | false =>
  cases h3 : truthy (jsGet value ("$regex")) with
  | true =>
    refine ⟨1, conditionalQuote sq k ++ " ~* $" ++ Nat.repr (c + 1),
      [normalizeValue (jsGet value ("$regex"))], ?_, rfl, ?_, fun _ _ => rfl⟩
    · simp [keyStepPlain, h1, h2, h3]
    · have hmid : (" ~* $" : String).data = (" ~* " : String).data ++ ['$'] := rfl
      have hdata : ((conditionalQuote sq k ++ " ~* $" ++ Nat.repr (c + 1))).data
          = ((conditionalQuote sq k).data ++ (" ~* " : String).data)
            ++ '$' :: (Nat.repr (c + 1)).data := by
        simp [hmid, List.append_assoc]
      rw [hdata, scan_tail_ph _ _ (by
        intro hmem
        rcases mem_append_decomp hmem with h4 | h4
        · exact hK h4
        · revert h4; decide), phChars_one]
  | false =>
  cases h4 : truthy (jsGet value ("$lte")) with
  | true =>
    refine ⟨1, conditionalQuote sq k ++ " <= $" ++ Nat.repr (c + 1),
      [normalizeValue (jsGet value ("$lte"))], ?_, rfl, ?_, fun _ _ => rfl⟩
    · simp [keyStepPlain, h1, h2, h3, h4]
    · have hmid : (" <= $" : String).data = (" <= " : String).data ++ ['$'] := rfl
      have hdata : ((conditionalQuote sq k ++ " <= $" ++ Nat.repr (c + 1))).data
          = ((conditionalQuote sq k).data ++ (" <= " : String).data)
            ++ '$' :: (Nat.repr (c + 1)).data := by
        simp [hmid, List.append_assoc]
      rw [hdata, scan_tail_ph _ _ (by
        intro hmem
        rcases mem_append_decomp hmem with h5 | h5
        · exact hK h5
        · revert h5; decide), phChars_one]
  | false =>
  cases h5 : truthy (jsGet value ("$lt")) with
  | true =>
    refine ⟨1, conditionalQuote sq k ++ " < $" ++ Nat.repr (c + 1),
      [normalizeValue (jsGet value ("$lt"))], ?_, rfl, ?_, fun _ _ => rfl⟩
    · simp [keyStepPlain, h1, h2, h3, h4, h5]
    · have hmid : (" < $" : String).data = (" < " : String).data ++ ['$'] := rfl
      have hdata : ((conditionalQuote sq k ++ " < $" ++ Nat.repr (c + 1))).data
          = ((conditionalQuote sq k).data ++ (" < " : String).data)
            ++ '$' :: (Nat.repr (c + 1)).data := by
        simp [hmid, List.append_assoc]
      rw [hdata, scan_tail_ph _ _ (by
        intro hmem
        rcases mem_append_decomp hmem with h6 | h6
        · exact hK h6
        · revert h6; decide), phChars_one]
  | false =>
  cases h6 : truthy (jsGet value ("$gte")) with
  | true =>
    refine ⟨1, conditionalQuote sq k ++ " >= $" ++ Nat.repr (c + 1),
      [normalizeValue (jsGet value ("$gte"))], ?_, rfl, ?_, fun _ _ => rfl⟩
    · simp [keyStepPlain, h1, h2, h3, h4, h5, h6]
    · have hmid : (" >= $" : String).data = (" >= " : String).data ++ ['$'] := rfl
      have hdata : ((conditionalQuote sq k ++ " >= $" ++ Nat.repr (c + 1))).data
          = ((conditionalQuote sq k).data ++ (" >= " : String).data)
            ++ '$' :: (Nat.repr (c + 1)).data := by
        simp [hmid, List.append_assoc]
      rw [hdata, scan_tail_ph _ _ (by
        intro hmem
        rcases mem_append_decomp hmem with h7 | h7
        · exact hK h7
        · revert h7; decide), phChars_one]
  | false =>
  cases h7 : truthy (jsGet value ("$gt")) with
  | true =>
    refine ⟨1, conditionalQuote sq k ++ " > $" ++ Nat.repr (c + 1),
      [normalizeValue (jsGet value ("$gt"))], ?_, rfl, ?_, fun _ _ => rfl⟩
    · simp [keyStepPlain, h1, h2, h3, h4, h5, h6, h7]
    · have hmid : (" > $" : String).data = (" > " : String).data ++ ['$'] := rfl
      have hdata : ((conditionalQuote sq k ++ " > $" ++ Nat.repr (c + 1))).data
          = ((conditionalQuote sq k).data ++ (" > " : String).data)
            ++ '$' :: (Nat.repr (c + 1)).data := by
        simp [hmid, List.append_assoc]
      rw [hdata, scan_tail_ph _ _ (by
        intro hmem
        rcases mem_append_decomp hmem with h8 | h8
        · exact hK h8
        · revert h8; decide), phChars_one]
  | false =>
  cases h8 : isUndefV (jsGet value ("$ne")) with
  | false =>
    cases h9 : isNullV (jsGet value ("$ne")) with
    | true =>
      refine ⟨0, conditionalQuote sq k ++ " IS NOT NULL", [], ?_, rfl, ?_, ?_⟩
      · simp [keyStepPlain, h1, h2, h3, h4, h5, h6, h7, h8, h9]
      · refine scan_free_clause _ ?_
        intro hmem
        simp only [String.data_append] at hmem
        rcases mem_append_decomp hmem with h10 | h10
        · exact hK h10
        · revert h10; decide
      · intro _ hal
        simp [allocOne, h1, h2, h3, h4, h5, h6, h7, h8, h9] at hal
    | false =>
      refine ⟨1, conditionalQuote sq k ++ " != $" ++ Nat.repr (c + 1),
        [normalizeValue (jsGet value ("$ne"))], ?_, rfl, ?_, fun _ _ => rfl⟩
      · simp [keyStepPlain, h1, h2, h3, h4, h5, h6, h7, h8, h9]
      · have hmid : (" != $" : String).data = (" != " : String).data ++ ['$'] := rfl
        have hdata : ((conditionalQuote sq k ++ " != $" ++ Nat.repr (c + 1))).data
            = ((conditionalQuote sq k).data ++ (" != " : String).data)
              ++ '$' :: (Nat.repr (c + 1)).data := by
          simp [hmid, List.append_assoc]
        rw [hdata, scan_tail_ph _ _ (by
          intro hmem
          rcases mem_append_decomp hmem with h10 | h10
          · exact hK h10
          · revert h10; decide), phChars_one]
  | true =>
  cases h9 : (isNullV value && u || isUndefV value) with
  | true =>
    refine ⟨0, conditionalQuote sq k ++ " IS NULL", [], ?_, rfl, ?_, ?_⟩
    · simp [keyStepPlain, h1, h2, h3, h4, h5, h6, h7, h8, h9]
    · refine scan_free_clause _ ?_
      intro hmem
      simp only [String.data_append] at hmem
      rcases mem_append_decomp hmem with h10 | h10
      · exact hK h10
      · revert h10; decide
    · intro hu hal
      subst hu
      simp only [Bool.and_true] at h9
      simp [allocOne, h1, h2, h3, h4, h5, h6, h7, h8, h9] at hal
  | false =>
  obtain ⟨A, B, hsubst, hA, hB, hBh⟩ := htmpl (c + 1) k hkfree
  cases hdot : k.data.contains '.' with
  | false =>
    have hdotp : ¬('.' ∈ k.data) := by
      intro hm
      have h10 : k.data.contains '.' = true :=
        List.contains_iff_exists_mem_beq.mpr ⟨'.', hm, rfl⟩
      rw [hdot] at h10
      cases h10
    refine ⟨1, conditionalQuote sq k ++ " = " ++ substTemplate tmpl (c + 1) k,
      [normalizeValue value], ?_, rfl, ?_, fun _ _ => rfl⟩
    · simp [keyStepPlain, h1, h2, h3, h4, h5, h6, h7, h8, h9, hdotp]
    · have hdata : ((conditionalQuote sq k ++ " = " ++ substTemplate tmpl (c + 1) k)).data
          = ((conditionalQuote sq k).data ++ (" = " : String).data ++ A)
            ++ '$' :: ((Nat.repr (c + 1)).data ++ B) := by
        simp [hsubst, List.append_assoc]
      rw [hdata, scan_single_ph _ _ _ (by
          intro hmem
          rcases mem_append_decomp hmem with h10 | h10
          · rcases mem_append_decomp h10 with h11 | h11
            · exact hK h11
            · revert h11; decide
          · exact hA h10) hB hBh, phChars_one]
  | true =>
    have hdotp : '.' ∈ k.data := by
      rcases List.contains_iff_exists_mem_beq.mp hdot with ⟨b, hb, hbeq⟩
      have h10 : b = '.' := (beq_iff_eq.mp hbeq).symm
      rw [← h10]
      exact hb
    have hfieldfree : '$' ∉ ((splitOnChar k '.').headD "").data := dollar_free_headD k hkfree
    have hpropfree : '$' ∉ ((splitOnChar k '.').getD 1 "").data := dollar_free_getD k hkfree 1
    cases hw : isW with
    | true =>
      refine ⟨1, conditionalQuote sq ((splitOnChar k '.').headD "" ++ " ->> \x27"
          ++ (splitOnChar k '.').getD 1 "" ++ "\x27") ++ " = "
          ++ substTemplate tmpl (c + 1) k,
        [normalizeValue (.str (jsToString value))], ?_, rfl, ?_, fun _ _ => rfl⟩
      · simp [keyStepPlain, h1, h2, h3, h4, h5, h6, h7, h8, h9, hdotp, hw]
      · have hk2 : '$' ∉ (conditionalQuote sq ((splitOnChar k '.').headD "" ++ " ->> \x27"
            ++ (splitOnChar k '.').getD 1 "" ++ "\x27")).data := by
          refine conditionalQuote_free sq _ ?_
          intro hmem
          simp only [String.data_append] at hmem
          rcases mem_append_decomp hmem with h10 | h10
          · rcases mem_append_decomp h10 with h11 | h11
            · rcases mem_append_decomp h11 with h12 | h12
              · exact hfieldfree h12
              · revert h12; decide
            · exact hpropfree h11
          · revert h10; decide
        have hdata : ((conditionalQuote sq ((splitOnChar k '.').headD "" ++ " ->> \x27"
              ++ (splitOnChar k '.').getD 1 "" ++ "\x27") ++ " = "
              ++ substTemplate tmpl (c + 1) k)).data
            = ((conditionalQuote sq ((splitOnChar k '.').headD "" ++ " ->> \x27"
              ++ (splitOnChar k '.').getD 1 "" ++ "\x27")).data ++ (" = " : String).data ++ A)
              ++ '$' :: ((Nat.repr (c + 1)).data ++ B) := by
          simp [hsubst, List.append_assoc]
        rw [hdata, scan_single_ph _ _ _ (by
            intro hmem
            rcases mem_append_decomp hmem with h10 | h10
            · rcases mem_append_decomp h10 with h11 | h11
              · exact hk2 h11
              · revert h11; decide
            · exact hA h10) hB hBh, phChars_one]
    | false =>
      refine ⟨1, conditionalQuote sq ((splitOnChar k '.').headD "") ++ " = \""
          ++ (splitOnChar k '.').headD "" ++ "\" || jsonb_build_object(\x27"
          ++ (splitOnChar k '.').getD 1 "" ++ "\x27, " ++ substTemplate tmpl (c + 1) k
          ++ "::text)",
        [normalizeValue value], ?_, rfl, ?_, fun _ _ => rfl⟩
      · simp [keyStepPlain, h1, h2, h3, h4, h5, h6, h7, h8, h9, hdotp, hw]
      · have hCQf : '$' ∉ (conditionalQuote sq ((splitOnChar k '.').headD "")).data :=
          conditionalQuote_free sq _ hfieldfree
        have hBh2 : ∀ d, (B ++ ("::text)" : String).data).head? = some d →
            d.isDigit = false := by
          refine head_not_digit_append B _ hBh ?_
          intro d hd
          have h13 : ("::text)" : String).data.head? = some ':' := rfl
          rw [h13] at hd
          rw [← Option.some.inj hd]
          decide
        have hdata : ((conditionalQuote sq ((splitOnChar k '.').headD "") ++ " = \""
              ++ (splitOnChar k '.').headD "" ++ "\" || jsonb_build_object(\x27"
              ++ (splitOnChar k '.').getD 1 "" ++ "\x27, " ++ substTemplate tmpl (c + 1) k
              ++ "::text)")).data
            = ((conditionalQuote sq ((splitOnChar k '.').headD "")).data
                ++ (" = \"" : String).data ++ ((splitOnChar k '.').headD "").data
                ++ ("\" || jsonb_build_object(\x27" : String).data
                ++ ((splitOnChar k '.').getD 1 "").data ++ ("\x27, " : String).data ++ A)
              ++ '$' :: ((Nat.repr (c + 1)).data ++ (B ++ ("::text)" : String).data)) := by
          simp [hsubst, List.append_assoc]
        rw [hdata, scan_single_ph _ _ _ (by
            intro hmem
            rcases mem_append_decomp hmem with h10 | h10
            · rcases mem_append_decomp h10 with h11 | h11
              · rcases mem_append_decomp h11 with h12 | h12
                · rcases mem_append_decomp h12 with h13 | h13
                  · rcases mem_append_decomp h13 with h14 | h14
                    · rcases mem_append_decomp h14 with h15 | h15
                      · exact hCQf h15
                      · revert h15; decide
                    · exact hfieldfree h14
                  · revert h13; decide
                · exact hpropfree h12
              · revert h11; decide
            · exact hA h10)
          (by
            intro hmem
            rcases mem_append_decomp hmem with h10 | h10
            · exact hB h10
            · revert h10; decide) hBh2, phChars_one]




theorem allocOne_inGuard (w : Value) (h : allocOne w = true) : inGuard w = true := by
  cases ht : truthy (jsGet w ("$in")) with
  | false => simp [inGuard, ht]
  | true =>
    rw [allocOne, if_pos ht] at h
    cases hjs : jsGet w ("$in") with
    | arr elems => simp [inGuard, hjs, isArrayV]
    | str s => rw [hjs] at h; exact Bool.noConfusion h
    | num n => rw [hjs] at h; exact Bool.noConfusion h
    | bool b => rw [hjs] at h; exact Bool.noConfusion h
    | null => rw [hjs] at h; exact Bool.noConfusion h
    | undef => rw [hjs] at h; exact Bool.noConfusion h
    | obj fs => rw [hjs] at h; exact Bool.noConfusion h
    | regexp src flags => rw [hjs] at h; exact Bool.noConfusion h

theorem unitDoc_elim (q : Value) (h : unitDoc q = true) :
    ∃ f w, q = .obj [(f, w)] ∧ plainKey f = true ∧ allocOne w = true := by
  cases q
  case obj fields =>
    cases fields
    case nil => exact Bool.noConfusion h
    case cons kv rest =>
      rcases kv with ⟨f, w⟩
      cases rest
      case nil =>
        simp only [unitDoc, Bool.and_eq_true] at h
        exact ⟨f, w, rfl, h.1, h.2⟩
      case cons kv2 rest2 => exact Bool.noConfusion h
  all_goals exact Bool.noConfusion h

theorem wfDoc_cons_ne_or (k : String) (v : Value) (rest : Record) (hk : k ≠ "$or") :
    wfDoc ((k, v) :: rest) = (wfKey k v && wfDoc rest) := by
  cases rest with
  | nil => simp [wfDoc, if_neg hk]
  | cons kv2 rest2 => rfl

theorem unit_bec (sq : Bool) (f : String) (w : Value) (c : Nat) (tmpl : String) (isW : Bool)
    (htmpl : TmplOk tmpl) (hf : plainKey f = true) (ha : allocOne w = true) :
    ∃ cl v, buildEqualityClause sq [(f, w)] c tmpl isW true = (c + 1, [cl], [v])
      ∧ scanAux cl.data none = phChars c 1 := by
  have hor : f ≠ "$or" := by
    intro h
    exact plainKey_not_mem f hf (by rw [h]; decide)
  have hpush : f ≠ "$push" := by
    intro h
    exact plainKey_not_mem f hf (by rw [h]; decide)
  obtain ⟨a, cl, vals, hstep, hlen, hscan, hone⟩ :=
    keyStepPlain_spec sq f w c tmpl isW true htmpl hf (allocOne_inGuard w ha)
  have ha1 : a = 1 := hone rfl ha
  subst ha1
  obtain ⟨v, hv⟩ : ∃ v, vals = [v] := by
    cases vals with
    | nil => simp at hlen
    | cons x xs =>
      cases xs with
      | nil => exact ⟨x, rfl⟩
      | cons y ys =>
        exfalso
        simp only [List.length_cons] at hlen
        omega
  subst hv
  refine ⟨cl, v, ?_, hscan⟩
  rw [bec_cons_plain sq f w [] c tmpl isW true hor hpush, hstep]
  simp [bec_nil]

theorem or_branches_scan (sq : Bool) :
    ∀ subs c, subs.all unitDoc = true →
      ∃ cls vals, buildSetClausForOr sq subs c = (cls, vals)
        ∧ vals.length = subs.length
        ∧ (cls.map fun cl => scanAux cl.data none).flatten = phChars c subs.length := by
  intro subs
  induction subs with
  | nil =>
    intro c _
    exact ⟨[], [], orW_nil sq c, rfl, rfl⟩
  | cons q rest ih =>
    intro c hall
    simp only [List.all_cons, Bool.and_eq_true] at hall
    obtain ⟨f, w, hq, hf, ha⟩ := unitDoc_elim q hall.1
    subst hq
    obtain ⟨cl, v, hbec, hscan⟩ := unit_bec sq f w c defaultTemplate false tmplOk_default hf ha
    obtain ⟨cls, vals, horw, hlen, hflat⟩ := ih (c + 1) hall.2
    refine ⟨cl :: cls, v :: vals, ?_, by simp [hlen], ?_⟩
    · rw [orW_cons_obj sq [(f, w)] rest c, hbec, horw]
      simp
    · simp only [List.map_cons, List.flatten_cons, hflat, hscan]
      rw [phChars_append]
      simp [List.length_cons, hlen, Nat.add_comm]

theorem scan_joinSep (sep : String) (c₀ : Char) (hhead : sep.data.head? = some c₀)
    (hc₀ : c₀.isDigit = false) (hsep : '$' ∉ sep.data) :
    ∀ cls : List String,
      scanAux (joinSep sep cls).data none
        = (cls.map fun cl => scanAux cl.data none).flatten := by
  intro cls
  induction cls with
  | nil => rfl
  | cons x rest ih =>
    cases rest with
    | nil => simp [joinSep]
    | cons y rest2 =>
      obtain ⟨t, ht⟩ : ∃ t, sep.data = c₀ :: t := by
        cases hs : sep.data with
        | nil => rw [hs] at hhead; cases hhead
        | cons a t =>
          rw [hs] at hhead
          simp only [List.head?_cons, Option.some.injEq] at hhead
          exact ⟨t, by rw [hhead]⟩
      have hjoin : (joinSep sep (x :: y :: rest2)).data
          = x.data ++ (sep.data ++ (joinSep sep (y :: rest2)).data) := by
        show (x ++ sep ++ joinSep sep (y :: rest2)).data = _
        simp [List.append_assoc]
      rw [hjoin,
        scanAux_append_of_head_not_digit x.data _ (by
          intro d hd
          rw [ht] at hd
          simp only [List.cons_append, List.head?_cons, Option.some.injEq] at hd
          exact hd ▸ hc₀) none,
        scanAux_append_of_prefix_free sep.data _ hsep, ih]
      simp

theorem wf_scan (sq isW u : Bool) :
    ∀ q, wfDoc q = true → ∀ c,
      ∃ cnt cls vals,
        buildEqualityClause sq q c defaultTemplate isW u = (cnt, cls, vals)
          ∧ (cls.map fun cl => scanAux cl.data none).flatten = phChars c vals.length := by
  intro q
  induction q with
  | nil =>
    intro _ c
    exact ⟨c, [], [], bec_nil sq c defaultTemplate isW u, rfl⟩
  | cons kv rest ih =>
    rcases kv with ⟨k, value⟩
    intro hwf c
    by_cases hor : k = "$or"
    · subst hor
      cases rest with
      | cons kv2 rest2 => exact Bool.noConfusion hwf
      | nil =>
        cases value with
        | arr subs =>
          have hall : subs.all unitDoc = true := hwf
          obtain ⟨cls, vals, horw, hlen, hflat⟩ := or_branches_scan sq subs c hall
          refine ⟨c, ["(" ++ joinSep (" OR ") cls ++ ")"], vals, ?_, ?_⟩
          · rw [bec_cons_or sq subs [] c defaultTemplate isW u, horw, bec_nil]
            simp
          · have hdata : (("(" ++ joinSep (" OR ") cls ++ ")")).data
                = ['('] ++ ((joinSep (" OR ") cls).data ++ [')']) := by
              simp [List.append_assoc]
            rw [List.map_cons, List.map_nil, List.flatten_cons, List.flatten_nil,
              List.append_nil, hdata,
              scanAux_append_of_prefix_free ['('] _ (by decide),
              scanAux_append_of_head_not_digit _ [')'] (by
                intro d hd
                simp only [List.head?_cons, Option.some.injEq] at hd
                rw [← hd]
                decide) none,
              scanAux_nil_of_free [')'] (by decide),
              scan_joinSep (" OR ") ' ' rfl (by decide) (by decide) cls,
              hflat]
            simp [hlen]
        | str s => exact Bool.noConfusion hwf
        | num n => exact Bool.noConfusion hwf
        | bool b => exact Bool.noConfusion hwf
        | null => exact Bool.noConfusion hwf
        | undef => exact Bool.noConfusion hwf
        | obj fs => exact Bool.noConfusion hwf
        | regexp src flags => exact Bool.noConfusion hwf
    · rw [wfDoc_cons_ne_or k value rest hor, Bool.and_eq_true] at hwf
      by_cases hpush : k = "$push"
      · subst hpush
        have hunit : unitDoc value = true := by
          have h2 := hwf.1
          rw [wfKey, if_pos rfl] at h2
          exact h2
        obtain ⟨f, w, hq, hf, ha⟩ := unitDoc_elim value hunit
        subst hq
        obtain ⟨cl, v, hbec, hscan⟩ :=
          unit_bec sq f w c pushTemplate false tmplOk_push hf ha
        obtain ⟨cnt2, cls2, vals2, hbec2, hflat2⟩ := ih hwf.2 (c + 1)
        refine ⟨cnt2, cl :: cls2, v :: vals2, ?_, ?_⟩
        · rw [bec_cons_push sq [(f, w)] rest c defaultTemplate isW u (by simp [hf]),
            hbec, hbec2]
          simp
        · simp only [List.map_cons, List.flatten_cons, hscan, hflat2]
          rw [phChars_append]
          simp [List.length_cons, Nat.add_comm]
      · have hk : plainKey k = true ∧ inGuard value = true := by
          have h2 := hwf.1
          rw [wfKey, if_neg hpush, Bool.and_eq_true] at h2
          exact h2
        obtain ⟨a, cl, vals, hstep, hlen, hscan, _⟩ :=
          keyStepPlain_spec sq k value c defaultTemplate isW u tmplOk_default hk.1 hk.2
        obtain ⟨cnt2, cls2, vals2, hbec2, hflat2⟩ := ih hwf.2 (c + a)
        refine ⟨cnt2, cl :: cls2, vals ++ vals2, ?_, ?_⟩
        · rw [bec_cons_plain sq k value rest c defaultTemplate isW u hor hpush, hstep]
          simp only [hbec2]
          simp
        · simp only [List.map_cons, List.flatten_cons, hscan, hflat2]
          rw [← hlen, phChars_append]
          simp [List.length_append]



theorem str_append_empty (s : String) : s ++ "" = s := by
  cases s with
  | mk data =>
    show String.mk (data ++ []) = String.mk data
    rw [List.append_nil]

theorem str_append_assoc (a b c : String) : a ++ b ++ c = a ++ (b ++ c) := by
  show String.mk ((a.data ++ b.data) ++ c.data) = String.mk (a.data ++ (b.data ++ c.data))
  rw [List.append_assoc]

theorem dollar_free_append (a b : String) (ha : '$' ∉ a.data) (hb : '$' ∉ b.data) :
    '$' ∉ (a ++ b).data := by
  intro h
  have h2 : '$' ∈ a.data ++ b.data := h
  rcases List.mem_append.mp h2 with h1 | h1
  · exact ha h1
  · exact hb h1

theorem scan_prefix_free (P s : String) (hP : '$' ∉ P.data) :
    scanAux (P ++ s).data none = scanAux s.data none := by
  have h : (P ++ s).data = P.data ++ s.data := rfl
  rw [h]
  exact scanAux_append_of_prefix_free _ _ hP

theorem phChars_map_phList (c n : Nat) :
    (phChars c n).map (fun l => (⟨'$' :: l⟩ : String)) = phList c n := by
  simp only [phChars, phList, List.map_map]
  rfl

theorem where_scan (sq : Bool) (q : Record) (hq : wfDoc q = true) (n : Nat) :
    scanAux (optionallyBuildWhere sq q n).sql.data none
      = phChars n (optionallyBuildWhere sq q n).values.length := by
  cases q with
  | nil => rfl
  | cons kv rest =>
    obtain ⟨cnt, cls, vals, hbec, hflat⟩ := wf_scan sq true true (kv :: rest) hq n
    have hw : optionallyBuildWhere sq (kv :: rest) n
        = ⟨" WHERE " ++ joinSep (" AND ") cls, vals⟩ := by
      simp only [optionallyBuildWhere, hbec]
    rw [hw]
    show scanAux ((" WHERE " ++ joinSep (" AND ") cls)).data none = phChars n vals.length
    rw [scan_prefix_free (" WHERE ") _ (by decide),
      scan_joinSep (" AND ") ' ' rfl (by decide) (by decide) cls, hflat]

theorem phChars_append_zero (a b : Nat) :
    phChars 0 a ++ phChars a b = phChars 0 (a + b) := by
  have h := phChars_append 0 a b
  rw [Nat.zero_add] at h
  exact h

theorem where_head (sq : Bool) (q : Record) (n : Nat) :
    ∀ d, (optionallyBuildWhere sq q n).sql.data.head? = some d → d.isDigit = false := by
  cases q with
  | nil =>
    intro d hd
    exact Option.noConfusion hd
  | cons kv rest =>
    intro d hd
    have h1 : (optionallyBuildWhere sq (kv :: rest) n).sql.data.head? = some ' ' := rfl
    rw [h1] at hd
    rw [← Option.some.inj hd]
    decide

/-- C1 (counterexample): a query whose `$or` carries a multi-key
sub-document reuses a placeholder number: the second branch restarts at the
incoming count plus one although the first branch allocated two
placeholders, so the emitted SQL holds `$1 $2 $2` against three bound
values. -/
theorem c1_or_reuses_placeholder :
    placeholderOccurrences (find false ("t")
        [("$or", .arr [.obj [("a", .num 1), ("b", .num 2)], .obj [("c", .num 3)]])]
        none).sql
      ≠ phList 0 (find false ("t")
          [("$or", .arr [.obj [("a", .num 1), ("b", .num 2)], .obj [("c", .num 3)]])]
          none).values.length := by
  decide

/-- C2 (counterexample): the `$or` branch offset advances by exactly one
per branch instead of being propagated: a first branch that allocates two
placeholders through `$in` is followed by a second branch that reuses `$2`
rather than continuing at `$3`. -/
theorem c2_branch_count_not_propagated :
    buildSetClausForOr false
        [.obj [("a", .obj [("$in", .arr [.num 1, .num 2])])], .obj [("b", .num 3)]] 0
        = (["a IN ($1, $2)", "b = $2"], [.num 1, .num 2, .num 3])
      ∧ (buildSetClausForOr false
          [.obj [("a", .obj [("$in", .arr [.num 1, .num 2])])], .obj [("b", .num 3)]] 0).1
        ≠ ["a IN ($1, $2)", "b = $3"] :=
  ⟨rfl, by decide⟩

/-- C2 (amended): each `$or` sub-document is built starting at the
incoming count plus the number of preceding sub-documents — the offset
advances by exactly one per branch, whatever the branch allocated — the
branch clause lists are flattened, joined with ` OR ` and wrapped in
parentheses, and the outer placeholder count is left unchanged by the
whole `$or` key. -/
theorem c2_or_offset (sq : Bool) (fields : Record) (rest : List Value) (subs : List Value)
    (restq : Record) (c : Nat) :
    buildSetClausForOr sq (.obj fields :: rest) c
        = ((buildEqualityClause sq fields c defaultTemplate false true).2.1
             ++ (buildSetClausForOr sq rest (c + 1)).1,
           (buildEqualityClause sq fields c defaultTemplate false true).2.2
             ++ (buildSetClausForOr sq rest (c + 1)).2)
      ∧ buildEqualityClause sq (("$or", .arr subs) :: restq) c defaultTemplate true true
        = ((buildEqualityClause sq restq c defaultTemplate true true).1,
           ("(" ++ joinSep (" OR ") (buildSetClausForOr sq subs c).1 ++ ")")
             :: (buildEqualityClause sq restq c defaultTemplate true true).2.1,
           (buildSetClausForOr sq subs c).2
             ++ (buildEqualityClause sq restq c defaultTemplate true true).2.2) :=
  ⟨orW_cons_obj sq fields rest c, bec_cons_or sq subs restq c defaultTemplate true true⟩



theorem jsGet_singleton_self (k : String) (v : Value) : jsGet (.obj [(k, v)]) k = v := by
  simp [jsGet, lookupField]

theorem jsGet_singleton_ne (k k2 : String) (v : Value) (h : k ≠ k2) :
    jsGet (.obj [(k, v)]) k2 = .undef := by
  simp [jsGet, lookupField, h]

/-- C3 (code-bug evidence): the current builder turns the claimed example
`update('users', {id:'123'}, {$push: {names:'hey'}})` into a plain
array-append SET clause that references its single placeholder once, with
the pushed string bound verbatim — not the coalesce-append expression
referencing the placeholder twice with a JSON-serialised value that the
repository's own test expects. -/
theorem c3_push_actual_output :
    update false ("users") [("id", Value.str ("123"))]
        [("$push", Value.obj [("names", Value.str ("hey"))])] false
      = ⟨"UPDATE users SET names = \"names\" || ARRAY[$1] WHERE id = $2",
         [Value.str ("hey"), Value.str ("123")]⟩ := rfl

/-- C4 (counterexample): a falsy comparison value defeats the truthiness
guard of the comparison branches: `{age: {$gt: 0}}` falls through to the
default equality branch and emits `age = $1`, binding the JSON text of the
whole comparison object, instead of `age > $1` binding `0`. -/
theorem c4_falsy_comparison :
    find false ("users") [("age", Value.obj [("$gt", Value.num 0)])] none
      = ⟨"SELECT * FROM users WHERE age = $1", [Value.str ("\x7b\"$gt\":0\x7d")]⟩ := rfl

/-- C4 (amended): for a truthy comparison value, a single-operator
comparison document on a plain key emits the field, the matching SQL
operator and exactly one newly allocated placeholder, binding the
normalised comparison value. -/
theorem c4_comparisons (sq : Bool) (k : String) (v : Value) (c : Nat)
    (hk : plainKey k = true) (hv : truthy v = true) :
    buildEqualityClause sq [(k, .obj [("$lte", v)])] c defaultTemplate true true
        = (c + 1, [conditionalQuote sq k ++ " <= $" ++ Nat.repr (c + 1)], [normalizeValue v])
      ∧ buildEqualityClause sq [(k, .obj [("$lt", v)])] c defaultTemplate true true
        = (c + 1, [conditionalQuote sq k ++ " < $" ++ Nat.repr (c + 1)], [normalizeValue v])
      ∧ buildEqualityClause sq [(k, .obj [("$gte", v)])] c defaultTemplate true true
        = (c + 1, [conditionalQuote sq k ++ " >= $" ++ Nat.repr (c + 1)], [normalizeValue v])
      ∧ buildEqualityClause sq [(k, .obj [("$gt", v)])] c defaultTemplate true true
        = (c + 1, [conditionalQuote sq k ++ " > $" ++ Nat.repr (c + 1)], [normalizeValue v]) := by
  have hor : k ≠ "$or" := by
    intro h
    exact plainKey_not_mem k hk (by rw [h]; decide)
  have hpush : k ≠ "$push" := by
    intro h
    exact plainKey_not_mem k hk (by rw [h]; decide)
  refine ⟨?_, ?_, ?_, ?_⟩
  · have hks : keyStepPlain sq k (.obj [("$lte", v)]) c defaultTemplate true true
        = (c + 1, [conditionalQuote sq k ++ " <= $" ++ Nat.repr (c + 1)], [normalizeValue v]) := by
      simp [keyStepPlain,
        jsGet_singleton_ne ("$lte") ("$in") v (by decide),
        jsGet_singleton_ne ("$lte") ("$type") v (by decide),
        jsGet_singleton_ne ("$lte") ("$exists") v (by decide),
        jsGet_singleton_ne ("$lte") ("$regex") v (by decide),
        jsGet_singleton_self ("$lte") v, hv,
        (rfl : truthy Value.undef = false),
        (rfl : isStrEq Value.undef ("string") = false)]
      simp [truthy, isStrEq]
    rw [bec_cons_plain sq k _ [] c defaultTemplate true true hor hpush, hks]
    simp [bec_nil]
  · have hks : keyStepPlain sq k (.obj [("$lt", v)]) c defaultTemplate true true
        = (c + 1, [conditionalQuote sq k ++ " < $" ++ Nat.repr (c + 1)], [normalizeValue v]) := by
      simp [keyStepPlain,
        jsGet_singleton_ne ("$lt") ("$in") v (by decide),
        jsGet_singleton_ne ("$lt") ("$type") v (by decide),
        jsGet_singleton_ne ("$lt") ("$exists") v (by decide),
        jsGet_singleton_ne ("$lt") ("$regex") v (by decide),
        jsGet_singleton_ne ("$lt") ("$lte") v (by decide),
        jsGet_singleton_self ("$lt") v, hv,
        (rfl : truthy Value.undef = false),
        (rfl : isStrEq Value.undef ("string") = false)]
      simp [truthy, isStrEq]
    rw [bec_cons_plain sq k _ [] c defaultTemplate true true hor hpush, hks]
    simp [bec_nil]
  · have hks : keyStepPlain sq k (.obj [("$gte", v)]) c defaultTemplate true true
        = (c + 1, [conditionalQuote sq k ++ " >= $" ++ Nat.repr (c + 1)], [normalizeValue v]) := by
      simp [keyStepPlain,
        jsGet_singleton_ne ("$gte") ("$in") v (by decide),
        jsGet_singleton_ne ("$gte") ("$type") v (by decide),
        jsGet_singleton_ne ("$gte") ("$exists") v (by decide),
        jsGet_singleton_ne ("$gte") ("$regex") v (by decide),
        jsGet_singleton_ne ("$gte") ("$lte") v (by decide),
        jsGet_singleton_ne ("$gte") ("$lt") v (by decide),
        jsGet_singleton_self ("$gte") v, hv,
        (rfl : truthy Value.undef = false),
        (rfl : isStrEq Value.undef ("string") = false)]
      simp [truthy, isStrEq]
    rw [bec_cons_plain sq k _ [] c defaultTemplate true true hor hpush, hks]
    simp [bec_nil]
  · have hks : keyStepPlain sq k (.obj [("$gt", v)]) c defaultTemplate true true
        = (c + 1, [conditionalQuote sq k ++ " > $" ++ Nat.repr (c + 1)], [normalizeValue v]) := by
      simp [keyStepPlain,
        jsGet_singleton_ne ("$gt") ("$in") v (by decide),
        jsGet_singleton_ne ("$gt") ("$type") v (by decide),
        jsGet_singleton_ne ("$gt") ("$exists") v (by decide),
        jsGet_singleton_ne ("$gt") ("$regex") v (by decide),
        jsGet_singleton_ne ("$gt") ("$lte") v (by decide),
        jsGet_singleton_ne ("$gt") ("$lt") v (by decide),
        jsGet_singleton_ne ("$gt") ("$gte") v (by decide),
        jsGet_singleton_self ("$gt") v, hv,
        (rfl : truthy Value.undef = false),
        (rfl : isStrEq Value.undef ("string") = false)]
      simp [truthy, isStrEq]
    rw [bec_cons_plain sq k _ [] c defaultTemplate true true hor hpush, hks]
    simp [bec_nil]

theorem c4_comparisons_witness :
    plainKey ("age") = true ∧ truthy (Value.num 3) = true
      ∧ buildEqualityClause false [("age", Value.obj [("$gt", Value.num 3)])] 0
          defaultTemplate true true
        = (0 + 1, [conditionalQuote false ("age") ++ " > $" ++ Nat.repr (0 + 1)],
           [normalizeValue (Value.num 3)]) :=
  ⟨by decide, by decide,
   (c4_comparisons false ("age") (Value.num 3) 0 (by decide) (by decide)).2.2.2⟩

/-- C6 (counterexample): with the quoting policy disabled the table name is
emitted bare, yet an include-list field is still double-quoted — the
include-list path quotes unconditionally instead of following the
policy. -/
theorem c6_include_quoted_when_disabled :
    find false ("users") [] (some ⟨some [("name")], none, none, none⟩)
        = ⟨"SELECT \"name\" FROM users", []⟩
      ∧ conditionalQuote false ("name") = "name" :=
  ⟨rfl, rfl⟩

/-- C6 (amended): a table or column identifier passed through the
conditional quoter is double-quoted exactly when the policy is enabled and
the identifier holds no space; the unconditional quoter always
double-quotes unless the identifier holds a space; and the include-list
column path applies the unconditional quoter to every field, bypassing the
policy. -/
theorem c6_quoting (sq : Bool) (f : String) :
    (conditionalQuote sq f
        = if sq && !f.data.contains ' ' then "\"" ++ f ++ "\"" else f)
      ∧ quote f = (if f.data.contains ' ' then f else "\"" ++ f ++ "\"")
      ∧ (∀ fs, buildColumnListFromIncludeFields (some fs)
          = joinSep (", ") (fs.map quote)) := by
  refine ⟨?_, rfl, fun fs => rfl⟩
  cases sq
  · simp [conditionalQuote]
  · cases hcon : f.data.contains ' '
    · have hnot : ¬(' ' ∈ f.data) := by
        intro hm
        have h2 : f.data.contains ' ' = true :=
          List.contains_iff_exists_mem_beq.mpr ⟨' ', hm, rfl⟩
        rw [hcon] at h2
        cases h2
      simp [conditionalQuote, quote, hcon, hnot]
    · have hmem : ' ' ∈ f.data := by
        rcases List.contains_iff_exists_mem_beq.mp hcon with ⟨b, hb, hbeq⟩
        have hb2 : ' ' = b := beq_iff_eq.mp hbeq
        rw [hb2]
        exact hb
      simp [conditionalQuote, quote, hcon, hmem]

/-- C8 (counterexample): the source strips every slash of the pattern's
textual form, not only the enclosing delimiters: a pattern whose text holds
an inner slash loses it. -/
theorem c8_inner_slash_stripped :
    normalizeValue (.regexp ("a/b") ("")) = .str ("ab")
      ∧ normalizeValueSpecLiteral (.regexp ("a/b") ("")) = .str ("a/b")
      ∧ normalizeValue (.regexp ("a/b") (""))
        ≠ normalizeValueSpecLiteral (.regexp ("a/b") ("")) := by
  refine ⟨rfl, rfl, ?_⟩
  intro h
  exact absurd (Value.str.inj h) (by decide)

/-- C8 (amended): the normaliser agrees everywhere with the amended
contract: a pattern yields its textual form with every slash removed,
a non-null array its JSON text with the outer brackets replaced by braces,
any other composite its JSON text, `undefined` becomes `null`, and every
other value passes through unchanged. -/
theorem c8_normalize_equiv (v : Value) : normalizeValue v = normalizeValueSpecAmended v := by
  cases v <;> rfl

theorem replaceAll_single_char (p r : Char) :
    ∀ s : List Char, ∀ fuel, s.length ≤ fuel →
      replaceAllFuel [p] [r] fuel s = s.map (fun c => if c = p then r else c) := by
  intro s
  induction s with
  | nil =>
    intro fuel _
    cases fuel <;> rfl
  | cons x xs ih =>
    intro fuel hf
    cases fuel with
    | zero => simp at hf
    | succ f =>
      have hf2 : xs.length ≤ f := by simpa using hf
      rw [replaceAllFuel]
      by_cases hx : x = p
      · have hcond : (([p] : List Char) ≠ [] ∧ ([p] : List Char).isPrefixOf (x :: xs)) := by
          subst hx
          exact ⟨by simp, by simp [List.isPrefixOf]⟩
        rw [if_pos hcond]
        have hdrop : (x :: xs).drop ([p] : List Char).length = xs := rfl
        rw [hdrop, ih f hf2]
        simp [hx]
      · have hcond : ¬(([p] : List Char) ≠ [] ∧ ([p] : List Char).isPrefixOf (x :: xs)) := by
          rintro ⟨-, hpre⟩
          simp [List.isPrefixOf] at hpre
          exact hx hpre.symm
        rw [if_neg hcond, ih f hf2]
        simp [hx]

theorem replaceAllStr_single_char (s : String) (p r : Char) :
    replaceAllStr s (⟨[p]⟩ : String) (⟨[r]⟩ : String)
      = ⟨s.data.map fun c => if c = p then r else c⟩ := by
  show (⟨replaceAllFuel [p] [r] s.data.length s.data⟩ : String) = _
  congr 1
  exact replaceAll_single_char p r s.data s.data.length (le_refl _)

/-- C9: the derived index name is the collection name, `_`, the fields
each lower-cased and joined with `_`, and the suffix `_index`, with every
literal `.` of the resulting name then replaced by `_`; as a pure function
of the collection and the ordered field list it is deterministic. -/
theorem c9_index_name (collection : String) (fields : List String) :
    generateIndexName collection fields
      = ⟨((collection ++ "_"
            ++ joinSep ("_") (fields.map fun f => (⟨f.data.map Char.toLower⟩ : String))
            ++ "_index")).data.map fun c => if c = '.' then '_' else c⟩ :=
  replaceAllStr_single_char _ '.' '_'

/-- C10: `delete` with the query omitted, or equal to the empty document,
emits exactly `DELETE FROM <table>` — no WHERE clause — with an empty
bound-value list, and the two calls agree. -/
theorem c10_delete_all (sq : Bool) (t : String) :
    delete sq t none = ⟨"DELETE FROM " ++ buildTableName sq t, []⟩
      ∧ delete sq t (some []) = delete sq t none := by
  constructor
  · show BuiltQuery.mk ("DELETE FROM " ++ buildTableName sq t ++ "") [] = _
    rw [str_append_empty]
  · rfl



theorem scan_wrap_paren (sep : String) (c₀ : Char) (hhead : sep.data.head? = some c₀)
    (hc₀ : c₀.isDigit = false) (hsep : '$' ∉ sep.data) (cls : List String) :
    scanAux (("(" ++ joinSep sep cls ++ ")")).data none
      = (cls.map fun cl => scanAux cl.data none).flatten := by
  have hdata : (("(" ++ joinSep sep cls ++ ")")).data
      = ['('] ++ ((joinSep sep cls).data ++ [')']) := by
    show (['('] ++ (joinSep sep cls).data) ++ [')'] = _
    rw [List.append_assoc]
  rw [hdata, scanAux_append_of_prefix_free ['('] _ (by decide),
    scanAux_append_of_head_not_digit _ [')'] (by
      intro d hd
      have h3 : ')' = d := Option.some.inj hd
      rw [← h3]
      decide) none,
    scanAux_nil_of_free [')'] (by decide),
    scan_joinSep sep c₀ hhead hc₀ hsep cls, List.append_nil]

theorem rowCells_count (record : Record) :
    ∀ fields c, (rowCells record fields c).1 = c + fields.length := by
  intro fields
  induction fields with
  | nil => intro c; rfl
  | cons f fs ih =>
    intro c
    show (rowCells record fs (c + 1)).1 = c + (fs.length + 1)
    rw [ih]
    omega

theorem rowCells_values (record : Record) :
    ∀ fields c, (rowCells record fields c).2.2 = fields.map (fieldValueToSqlValue record) := by
  intro fields
  induction fields with
  | nil => intro c; rfl
  | cons f fs ih =>
    intro c
    show fieldValueToSqlValue record f :: (rowCells record fs (c + 1)).2.2 = _
    rw [ih]
    rfl

theorem cellPlaceholder_scan (record : Record) (f : String) (n : Nat) :
    scanAux (cellPlaceholder record f n).data none = [(Nat.repr n).data] := by
  rw [cellPlaceholder]
  by_cases hc : (isValueObject ((lookupField record f).getD (.undef))
      && !isArrayV ((lookupField record f).getD (.undef))) = true
  · rw [if_pos hc]
    have hdata : (("$" ++ Nat.repr n ++ "::json")).data
        = ('$' :: (Nat.repr n).data) ++ ("::json").data := rfl
    rw [hdata, scanAux_placeholder n _ (by
      intro d hd
      have h3 : ':' = d := Option.some.inj hd
      rw [← h3]
      decide),
      scanAux_nil_of_free _ (by decide)]
  · rw [if_neg hc]
    have hdata : (("$" ++ Nat.repr n ++ "")).data
        = ('$' :: (Nat.repr n).data) ++ ([] : List Char) := rfl
    rw [hdata, scanAux_placeholder n [] (by intro d hd; exact Option.noConfusion hd)]
    rfl

theorem rowCells_scan (record : Record) :
    ∀ fields c, ((rowCells record fields c).2.1.map fun cl => scanAux cl.data none).flatten
        = phChars c fields.length := by
  intro fields
  induction fields with
  | nil => intro c; rfl
  | cons f fs ih =>
    intro c
    show (scanAux (cellPlaceholder record f (c + 1)).data none
        ++ ((rowCells record fs (c + 1)).2.1.map fun cl => scanAux cl.data none).flatten)
      = phChars c (fs.length + 1)
    rw [cellPlaceholder_scan, ih (c + 1), phChars_succ]
    rfl

theorem rowsFor_spec (fields : List String) :
    ∀ records c,
      (rowsFor fields records c).2.2
          = (records.map fun r => fields.map (fieldValueToSqlValue r)).flatten
        ∧ ((rowsFor fields records c).2.1.map fun cl => scanAux cl.data none).flatten
          = phChars c (rowsFor fields records c).2.2.length
        ∧ (rowsFor fields records c).1 = c + (rowsFor fields records c).2.2.length := by
  intro records
  induction records with
  | nil => intro c; exact ⟨rfl, rfl, rfl⟩
  | cons r rs ih =>
    intro c
    obtain ⟨ihv, ihs, ihc⟩ := ih (rowCells r fields c).1
    have hrowv := rowCells_values r fields c
    have hrowc := rowCells_count r fields c
    have hrow_scan : scanAux (("(" ++ joinSep (", ") (rowCells r fields c).2.1 ++ ")")).data none
        = phChars c fields.length := by
      rw [scan_wrap_paren (", ") ',' rfl (by decide) (by decide), rowCells_scan r fields c]
    refine ⟨?_, ?_, ?_⟩
    · show (rowCells r fields c).2.2 ++ (rowsFor fields rs (rowCells r fields c).1).2.2 = _
      rw [ihv, hrowv]
      rfl
    · show (scanAux (("(" ++ joinSep (", ") (rowCells r fields c).2.1 ++ ")")).data none
          ++ ((rowsFor fields rs (rowCells r fields c).1).2.1.map
              fun cl => scanAux cl.data none).flatten)
        = phChars c ((rowCells r fields c).2.2
            ++ (rowsFor fields rs (rowCells r fields c).1).2.2).length
      rw [hrow_scan, ihs, List.length_append]
      have hlen : (rowCells r fields c).2.2.length = fields.length := by
        rw [hrowv, List.length_map]
      rw [hrowc]
      rw [show c + fields.length = c + (rowCells r fields c).2.2.length by rw [hlen]]
      rw [← hlen, phChars_append]
    · show (rowsFor fields rs (rowCells r fields c).1).1
        = c + ((rowCells r fields c).2.2
            ++ (rowsFor fields rs (rowCells r fields c).1).2.2).length
      have hlen : (rowCells r fields c).2.2.length = fields.length := by
        rw [hrowv, List.length_map]
      rw [ihc, hrowc, List.length_append, hlen]
      omega

theorem joinSep_free (sep : String) (hsep : '$' ∉ sep.data) :
    ∀ parts : List String, (∀ p ∈ parts, '$' ∉ p.data) → '$' ∉ (joinSep sep parts).data := by
  intro parts
  induction parts with
  | nil =>
    intro _ h
    exact List.not_mem_nil '$' h
  | cons x rest ih =>
    cases rest with
    | nil =>
      intro hall
      exact hall x (by simp)
    | cons y r2 =>
      intro hall h
      have h2 : '$' ∈ (x.data ++ sep.data) ++ (joinSep sep (y :: r2)).data := h
      rcases List.mem_append.mp h2 with h1 | h1
      · rcases List.mem_append.mp h1 with h3 | h3
        · exact hall x (by simp) h3
        · exact hsep h3
      · exact ih (fun p hp => hall p (List.mem_cons_of_mem x hp)) h1

theorem lookupField_none_of_not_mem (f : String) :
    ∀ r : Record, ¬ f ∈ r.map Prod.fst → lookupField r f = none := by
  intro r
  induction r with
  | nil => intro _; rfl
  | cons kv rest ih =>
    intro h
    rcases kv with ⟨k, v⟩
    have hk : k ≠ f := by
      intro he
      subst he
      exact h (by simp)
    rw [lookupField, if_neg hk]
    exact ih (fun hm => h (by simp [hm]))

/-- C7: `find` is `SELECT <columns> FROM <table>` followed, in this fixed
order, by the WHERE, OFFSET, ORDER BY and LIMIT parts; the WHERE part is
empty with zero bound values exactly when the query document is empty, and
each of the other three parts is empty exactly when its option (skip,
sort, limit) is absent. -/
theorem c7_find_shape (sq : Bool) (t : String) (q : Record) (opts : Option QueryOptions) :
    find sq t q opts
        = ⟨"SELECT "
            ++ buildColumnListFromIncludeFields (opts.getD emptyOptions).includeFields
            ++ " FROM " ++ buildTableName sq t
            ++ (optionallyBuildWhere sq q 0).sql
            ++ optionallyBuildSkip (opts.getD emptyOptions).skip
            ++ optionallyBuildSort sq (opts.getD emptyOptions).sort
            ++ optionallyBuildLimit (opts.getD emptyOptions).limit,
           (optionallyBuildWhere sq q 0).values⟩
      ∧ ((optionallyBuildWhere sq q 0).sql = ""
          ∧ (optionallyBuildWhere sq q 0).values = [] ↔ q = [])
      ∧ (optionallyBuildSkip (opts.getD emptyOptions).skip = ""
          ↔ (opts.getD emptyOptions).skip = none)
      ∧ (optionallyBuildSort sq (opts.getD emptyOptions).sort = ""
          ↔ (opts.getD emptyOptions).sort = none)
      ∧ (optionallyBuildLimit (opts.getD emptyOptions).limit = ""
          ↔ (opts.getD emptyOptions).limit = none) := by
  refine ⟨rfl, ?_, ?_, ?_, ?_⟩
  · cases q with
    | nil => simp [optionallyBuildWhere]
    | cons kv rest =>
      constructor
      · rintro ⟨h1, -⟩
        exfalso
        have hda : (optionallyBuildWhere sq (kv :: rest) 0).sql.data.head? = some ' ' := rfl
        rw [h1] at hda
        exact Option.noConfusion hda
      · intro h
        exact List.noConfusion h
  · cases hsk : (opts.getD emptyOptions).skip with
    | none => simp [optionallyBuildSkip]
    | some n =>
      constructor
      · intro h1
        exfalso
        have hda : (optionallyBuildSkip (some n)).data.head? = some ' ' := rfl
        rw [show optionallyBuildSkip (some n) = "" from h1] at hda
        exact Option.noConfusion hda
      · intro h
        exact Option.noConfusion h
  · cases hso : (opts.getD emptyOptions).sort with
    | none => simp [optionallyBuildSort]
    | some s =>
      constructor
      · intro h1
        exfalso
        have hda : (optionallyBuildSort sq (some s)).data.head? = some ' ' := rfl
        rw [show optionallyBuildSort sq (some s) = "" from h1] at hda
        exact Option.noConfusion hda
      · intro h
        exact Option.noConfusion h
  · cases hli : (opts.getD emptyOptions).limit with
    | none => simp [optionallyBuildLimit]
    | some n =>
      constructor
      · intro h1
        exfalso
        have hda : (optionallyBuildLimit (some n)).data.head? = some ' ' := rfl
        rw [show optionallyBuildLimit (some n) = "" from h1] at hda
        exact Option.noConfusion hda
      · intro h
        exact Option.noConfusion h



theorem mem_firstDedup (f : String) : ∀ l : List String, f ∈ firstDedup l ↔ f ∈ l := by
  intro l
  induction l with
  | nil => simp [firstDedup]
  | cons x xs ih =>
    simp only [firstDedup, List.mem_cons, List.mem_filter]
    constructor
    · rintro (h | ⟨h1, -⟩)
      · exact Or.inl h
      · exact Or.inr (ih.mp h1)
    · rintro (h | h)
      · exact Or.inl h
      · by_cases hx : f = x
        · exact Or.inl hx
        · exact Or.inr ⟨ih.mpr h, by simp [hx]⟩

theorem nodup_firstDedup : ∀ l : List String, (firstDedup l).Nodup := by
  intro l
  induction l with
  | nil => exact List.nodup_nil
  | cons x xs ih =>
    rw [firstDedup]
    refine List.Nodup.cons ?_ (List.Nodup.filter _ ih)
    intro hmem
    have h2 := (List.mem_filter.mp hmem).2
    simp at h2

theorem all_firstDedup (p : String → Bool) (l : List String) (h : l.all p = true) :
    (firstDedup l).all p = true := by
  rw [List.all_eq_true] at h ⊢
  intro x hx
  exact h x ((mem_firstDedup x l).mp hx)

theorem jsMerge_keys_plain (a b : Record)
    (ha : (a.map Prod.fst).all plainKey = true)
    (hb : (b.map Prod.fst).all plainKey = true) :
    ((jsMerge a b).map Prod.fst).all plainKey = true := by
  rw [List.all_eq_true]
  intro x hx
  rcases List.mem_map.mp hx with ⟨kv, hkv, hfx⟩
  rw [jsMerge] at hkv
  rcases List.mem_append.mp hkv with h1 | h1
  · rcases List.mem_map.mp h1 with ⟨kv2, hkv2, hkv2e⟩
    rw [List.all_eq_true] at ha
    rw [← hfx, ← hkv2e]
    exact ha kv2.1 (List.mem_map_of_mem Prod.fst hkv2)
  · have hkvb : kv ∈ b := (List.mem_filter.mp h1).1
    rw [List.all_eq_true] at hb
    rw [← hfx]
    exact hb kv.1 (List.mem_map_of_mem Prod.fst hkvb)

theorem int_repr_free (n : Int) : '$' ∉ (Int.repr n).data := by
  cases n with
  | ofNat m => exact dollar_not_mem_repr m
  | negSucc m =>
    intro h
    have h2 : '$' ∈ ("-").data ++ (Nat.repr (m + 1)).data := h
    rcases List.mem_append.mp h2 with h1 | h1
    · revert h1
      decide
    · exact dollar_not_mem_repr (m + 1) h1

theorem toUpper_dollar (c : Char) (h : c.toUpper = '$') : c = '$' := by
  rw [Char.toUpper] at h
  split at h
  · exfalso
    rename_i hrange
    have hvalid : (c.toNat - 32).isValidChar := Or.inl (by omega)
    rw [Char.ofNat, dif_pos hvalid] at h
    have h2 := congrArg Char.toNat h
    have h3 : (Char.ofNatAux (c.toNat - 32) hvalid).toNat = c.toNat - 32 := rfl
    rw [h3] at h2
    have h4 : ('$').toNat = 36 := rfl
    rw [h4] at h2
    omega
  · exact h

theorem skip_free (o : Option Int) : '$' ∉ (optionallyBuildSkip o).data := by
  cases o with
  | none =>
    intro h
    exact List.not_mem_nil '$' h
  | some n =>
    intro h
    have h2 : '$' ∈ (" OFFSET ").data ++ (Int.repr n).data := h
    rcases List.mem_append.mp h2 with h1 | h1
    · revert h1
      decide
    · exact int_repr_free n h1

theorem limit_free (o : Option Int) : '$' ∉ (optionallyBuildLimit o).data := by
  cases o with
  | none =>
    intro h
    exact List.not_mem_nil '$' h
  | some n =>
    intro h
    have h2 : '$' ∈ (" LIMIT ").data ++ (Int.repr n).data := h
    rcases List.mem_append.mp h2 with h1 | h1
    · revert h1
      decide
    · exact int_repr_free n h1

theorem sort_free (sq : Bool) (o : Option (List QuerySortField))
    (h : (o.getD []).all (fun s => plainKey s.field && plainKey s.direction) = true) :
    '$' ∉ (optionallyBuildSort sq o).data := by
  cases o with
  | none =>
    intro h2
    exact List.not_mem_nil '$' h2
  | some srt =>
    intro h2
    have h3 : '$' ∈ (" ORDER BY ").data
        ++ (joinSep (", ") (srt.map fun s =>
            conditionalQuote sq s.field ++ " "
              ++ (⟨s.direction.data.map Char.toUpper⟩ : String))).data := h2
    rcases List.mem_append.mp h3 with h1 | h1
    · revert h1
      decide
    · refine joinSep_free (", ") (by decide) _ ?_ h1
      intro p hp
      rcases List.mem_map.mp hp with ⟨s, hs, hsp⟩
      rw [← hsp]
      rw [List.all_eq_true] at h
      have hs2 := h s hs
      rw [Bool.and_eq_true] at hs2
      intro hmem
      have h4 : '$' ∈ ((conditionalQuote sq s.field).data ++ (" ").data)
          ++ (s.direction.data.map Char.toUpper) := hmem
      rcases List.mem_append.mp h4 with h5 | h5
      · rcases List.mem_append.mp h5 with h6 | h6
        · exact conditionalQuote_free sq s.field (plainKey_not_mem _ hs2.1) h6
        · revert h6
          decide
      · rcases List.mem_map.mp h5 with ⟨c, hc, hcu⟩
        have hcd : c = '$' := toUpper_dollar c hcu
        exact plainKey_not_mem _ hs2.2 (hcd ▸ hc)

theorem include_cols_free (o : Option (List String))
    (h : (o.getD []).all plainKey = true) :
    '$' ∉ (buildColumnListFromIncludeFields o).data := by
  cases o with
  | none =>
    intro h2
    revert h2
    decide
  | some fs =>
    refine joinSep_free (", ") (by decide) _ ?_
    intro p hp
    rcases List.mem_map.mp hp with ⟨g, hg, hgp⟩
    rw [← hgp]
    rw [List.all_eq_true] at h
    exact quote_free g (plainKey_not_mem g (h g hg))

theorem skip_head (o : Option Int) :
    ∀ d, (optionallyBuildSkip o).data.head? = some d → d.isDigit = false := by
  cases o with
  | none =>
    intro d hd
    exact Option.noConfusion hd
  | some n =>
    intro d hd
    have h3 : ' ' = d := Option.some.inj hd
    rw [← h3]
    decide

theorem limit_head (o : Option Int) :
    ∀ d, (optionallyBuildLimit o).data.head? = some d → d.isDigit = false := by
  cases o with
  | none =>
    intro d hd
    exact Option.noConfusion hd
  | some n =>
    intro d hd
    have h3 : ' ' = d := Option.some.inj hd
    rw [← h3]
    decide

theorem sort_head (sq : Bool) (o : Option (List QuerySortField)) :
    ∀ d, (optionallyBuildSort sq o).data.head? = some d → d.isDigit = false := by
  cases o with
  | none =>
    intro d hd
    exact Option.noConfusion hd
  | some srt =>
    intro d hd
    have h3 : ' ' = d := Option.some.inj hd
    rw [← h3]
    decide

theorem cwr_scan_parts (sq : Bool) (t : String) (records : List Record)
    (ht : plainKey t = true)
    (hplain : (buildColumnListFromAllRecords records).all plainKey = true) :
    ∃ P R : String,
      (createWithoutReturning sq t records).sql = P ++ R
        ∧ '$' ∉ P.data
        ∧ scanAux R.data none
            = phChars 0 (createWithoutReturning sq t records).values.length := by
  have hcolsfree : '$' ∉ (joinSep (", ")
      ((buildColumnListFromAllRecords records).map (conditionalQuote sq))).data := by
    refine joinSep_free (", ") (by decide) _ ?_
    intro p hp
    rcases List.mem_map.mp hp with ⟨g, hg, hgp⟩
    rw [← hgp]
    exact conditionalQuote_free sq g
      (plainKey_not_mem g (by
        rw [List.all_eq_true] at hplain
        exact hplain g hg))
  have htfree : '$' ∉ (conditionalQuote sq t).data :=
    conditionalQuote_free sq t (plainKey_not_mem t ht)
  refine ⟨"INSERT INTO " ++ buildTableName sq t ++ " ("
      ++ joinSep (", ") ((buildColumnListFromAllRecords records).map (conditionalQuote sq))
      ++ ") VALUES ",
    joinSep (", ") (rowsFor (buildColumnListFromAllRecords records) records 0).2.1,
    rfl, ?_, ?_⟩
  · exact dollar_free_append _ _ (dollar_free_append _ _ (dollar_free_append _ _
      (dollar_free_append _ _ (by decide) htfree) (by decide)) hcolsfree) (by decide)
  · obtain ⟨-, hscan, -⟩ := rowsFor_spec (buildColumnListFromAllRecords records) records 0
    rw [scan_joinSep (", ") ',' rfl (by decide) (by decide), hscan]
    rfl

theorem create_scan (sq : Bool) (t : String) (records : List Record)
    (ht : plainKey t = true)
    (hplain : (buildColumnListFromAllRecords records).all plainKey = true) :
    placeholderOccurrences (create sq t records).sql
      = phList 0 (create sq t records).values.length := by
  obtain ⟨P, R, hPR, hPfree, hRscan⟩ := cwr_scan_parts sq t records ht hplain
  have hsql : (create sq t records).sql = P ++ (R ++ " RETURNING *") := by
    show (createWithoutReturning sq t records).sql ++ " RETURNING *" = _
    rw [hPR, str_append_assoc]
  rw [hsql]
  simp only [placeholderOccurrences]
  rw [scan_prefix_free _ _ hPfree]
  show (scanAux (R.data ++ ((" RETURNING *" : String)).data) none).map _ = _
  rw [scanAux_append_of_head_not_digit _ _ (by
      intro d hd
      have h3 : ' ' = d := Option.some.inj hd
      rw [← h3]
      decide) none,
    scanAux_nil_of_free ((" RETURNING *" : String)).data (by decide), List.append_nil,
    hRscan, phChars_map_phList]
  rfl

/-- C5: `create` builds a multi-row INSERT: the column list is the ordered
union of the records' field names with duplicates dropped at the first
occurrence, the bound values run in row-major (record, field) order, a
record lacking a field binds `null`, the SQL holds exactly one placeholder
per cell numbered consecutively from 1, and a cell carries a `::json` cast
exactly when the raw field value is a non-null object that is not an
array. -/
theorem c5_create (sq : Bool) (t : String) (records : List Record)
    (ht : plainKey t = true)
    (hplain : (buildColumnListFromAllRecords records).all plainKey = true) :
    (∀ f, f ∈ buildColumnListFromAllRecords records ↔ ∃ r ∈ records, f ∈ r.map Prod.fst)
      ∧ (buildColumnListFromAllRecords records).Nodup
      ∧ (create sq t records).values
          = (records.map fun r =>
              (buildColumnListFromAllRecords records).map (fieldValueToSqlValue r)).flatten
      ∧ (∀ r f, ¬ f ∈ r.map Prod.fst → fieldValueToSqlValue r f = Value.null)
      ∧ placeholderOccurrences (create sq t records).sql
          = phList 0 (create sq t records).values.length
      ∧ (∀ r f n, ∃ s, cellPlaceholder r f n = "$" ++ Nat.repr n ++ s
          ∧ (s = "::json" ↔ (isValueObject ((lookupField r f).getD (.undef)) = true
              ∧ isArrayV ((lookupField r f).getD (.undef)) = false))
          ∧ (s = "" ∨ s = "::json")) := by
  obtain ⟨hvals, -, -⟩ := rowsFor_spec (buildColumnListFromAllRecords records) records 0
  refine ⟨?_, nodup_firstDedup _, ?_, ?_, create_scan sq t records ht hplain, ?_⟩
  · intro f
    rw [buildColumnListFromAllRecords, mem_firstDedup, List.mem_flatten]
    constructor
    · rintro ⟨l, hl, hf⟩
      rcases List.mem_map.mp hl with ⟨r, hr, hrl⟩
      exact ⟨r, hr, by rw [hrl]; exact hf⟩
    · rintro ⟨r, hr, hf⟩
      exact ⟨r.map Prod.fst, List.mem_map_of_mem _ hr, hf⟩
  · exact hvals
  · intro r f h
    rw [fieldValueToSqlValue, lookupField_none_of_not_mem f r h]
    rfl
  · intro r f n
    by_cases hc : (isValueObject ((lookupField r f).getD (.undef))
        && !isArrayV ((lookupField r f).getD (.undef))) = true
    · refine ⟨"::json", ?_, ?_, Or.inr rfl⟩
      · rw [cellPlaceholder, if_pos hc]
      · simp only [Bool.and_eq_true, Bool.not_eq_true'] at hc
        simp [hc.1, hc.2]
    · refine ⟨"", ?_, ?_, Or.inl rfl⟩
      · rw [cellPlaceholder, if_neg hc]
      · constructor
        · intro h
          exact absurd h (by decide)
        · rintro ⟨h1, h2⟩
          exfalso
          exact hc (by simp [h1, h2])

theorem c5_create_witness :
    plainKey ("users") = true
      ∧ (buildColumnListFromAllRecords
          [[("a", Value.num 1)], [("b", Value.null)]]).all plainKey = true
      ∧ placeholderOccurrences
          (create true ("users") [[("a", Value.num 1)], [("b", Value.null)]]).sql
        = phList 0
            (create true ("users") [[("a", Value.num 1)], [("b", Value.null)]]).values.length :=
  ⟨by decide, by decide,
   (c5_create true ("users") [[("a", Value.num 1)], [("b", Value.null)]]
     (by decide) (by decide)).2.2.2.2.1⟩



/-- C1 (amended): for a `$`-free table name and well-formed documents —
every key `$`-free with a truthy `$in` an array, `$push` a single
plain-field unit document, `$or` only as the final key over unit
sub-documents — `find` (over any options whose include-list fields and
sort fields/directions are `$`-free), `delete` and `update` emit exactly
`len(values)` placeholders numbered consecutively from 1 with none skipped
or reused; `create` does so over records whose field names are `$`-free,
and `upsert` when additionally the query's and update's field names are
`$`-free. -/
theorem c1_placeholders (sq ret : Bool) (t : String) (q upd : Record)
    (records : List Record) (opts : Option QueryOptions)
    (ht : plainKey t = true) (hq : wfDoc q = true) (hupd : wfDoc upd = true)
    (hinc : ((opts.getD emptyOptions).includeFields.getD []).all plainKey = true)
    (hsort : ((opts.getD emptyOptions).sort.getD []).all
        (fun s => plainKey s.field && plainKey s.direction) = true) :
    placeholderOccurrences (find sq t q opts).sql
        = phList 0 (find sq t q opts).values.length
      ∧ placeholderOccurrences (delete sq t (some q)).sql
        = phList 0 (delete sq t (some q)).values.length
      ∧ placeholderOccurrences (update sq t q upd ret).sql
        = phList 0 (update sq t q upd ret).values.length
      ∧ ((buildColumnListFromAllRecords records).all plainKey = true →
          placeholderOccurrences (create sq t records).sql
            = phList 0 (create sq t records).values.length)
      ∧ ((q.map Prod.fst).all plainKey = true → (upd.map Prod.fst).all plainKey = true →
          placeholderOccurrences (upsert sq t q upd).sql
            = phList 0 (upsert sq t q upd).values.length) := by
  have htfree : '$' ∉ (conditionalQuote sq t).data :=
    conditionalQuote_free sq t (plainKey_not_mem t ht)
  refine ⟨?_, ?_, ?_, ?_, ?_⟩
  · have hcols : '$' ∉ (buildColumnListFromIncludeFields
        (opts.getD emptyOptions).includeFields).data := include_cols_free _ hinc
    have hP : '$' ∉ (("SELECT "
        ++ buildColumnListFromIncludeFields (opts.getD emptyOptions).includeFields
        ++ " FROM " ++ conditionalQuote sq t)).data :=
      dollar_free_append _ _ (dollar_free_append _ _ (dollar_free_append _ _
        (by decide) hcols) (by decide)) htfree
    have hSfree : '$' ∉ ((optionallyBuildSkip (opts.getD emptyOptions).skip
        ++ (optionallyBuildSort sq (opts.getD emptyOptions).sort
          ++ optionallyBuildLimit (opts.getD emptyOptions).limit))).data :=
      dollar_free_append _ _ (skip_free _)
        (dollar_free_append _ _ (sort_free sq _ hsort) (limit_free _))
    have hShead : ∀ d, ((optionallyBuildSkip (opts.getD emptyOptions).skip).data
        ++ ((optionallyBuildSort sq (opts.getD emptyOptions).sort).data
          ++ (optionallyBuildLimit (opts.getD emptyOptions).limit).data)).head? = some d →
        d.isDigit = false :=
      head_not_digit_append _ _ (skip_head _)
        (head_not_digit_append _ _ (sort_head sq _) (limit_head _))
    have hsql : (find sq t q opts).sql
        = ("SELECT "
            ++ buildColumnListFromIncludeFields (opts.getD emptyOptions).includeFields
            ++ " FROM " ++ conditionalQuote sq t)
          ++ ((optionallyBuildWhere sq q 0).sql
            ++ (optionallyBuildSkip (opts.getD emptyOptions).skip
              ++ (optionallyBuildSort sq (opts.getD emptyOptions).sort
                ++ optionallyBuildLimit (opts.getD emptyOptions).limit))) := by
      show ("SELECT "
          ++ buildColumnListFromIncludeFields (opts.getD emptyOptions).includeFields
          ++ " FROM " ++ buildTableName sq t
          ++ (optionallyBuildWhere sq q 0).sql
          ++ optionallyBuildSkip (opts.getD emptyOptions).skip
          ++ optionallyBuildSort sq (opts.getD emptyOptions).sort
          ++ optionallyBuildLimit (opts.getD emptyOptions).limit) = _
      simp [str_append_assoc, buildTableName]
    rw [hsql]
    simp only [placeholderOccurrences]
    rw [scan_prefix_free _ _ hP]
    have hSfree2 : '$' ∉ ((optionallyBuildSkip (opts.getD emptyOptions).skip).data
        ++ ((optionallyBuildSort sq (opts.getD emptyOptions).sort).data
          ++ (optionallyBuildLimit (opts.getD emptyOptions).limit).data)) := hSfree
    show (scanAux ((optionallyBuildWhere sq q 0).sql.data
        ++ ((optionallyBuildSkip (opts.getD emptyOptions).skip).data
          ++ ((optionallyBuildSort sq (opts.getD emptyOptions).sort).data
            ++ (optionallyBuildLimit (opts.getD emptyOptions).limit).data))) none).map _ = _
    rw [scanAux_append_of_head_not_digit _ _ (fun d hd => hShead d hd) none,
      where_scan sq q hq 0,
      scanAux_nil_of_free ((optionallyBuildSkip (opts.getD emptyOptions).skip).data
        ++ ((optionallyBuildSort sq (opts.getD emptyOptions).sort).data
          ++ (optionallyBuildLimit (opts.getD emptyOptions).limit).data)) hSfree2,
      List.append_nil, phChars_map_phList]
    rfl
  · show (scanAux ((("DELETE FROM " ++ conditionalQuote sq t)
        ++ (optionallyBuildWhere sq q 0).sql)).data none).map _ = _
    rw [scan_prefix_free _ _ (dollar_free_append _ _ (by decide) htfree),
      where_scan sq q hq 0, phChars_map_phList]
    rfl
  · obtain ⟨cnt, cls, vals, hbec, hflat⟩ := wf_scan sq false false upd hupd 0
    have h0 : update sq t q upd ret
        = ⟨("UPDATE " ++ conditionalQuote sq t ++ " SET ")
            ++ (joinSep (", ") cls
              ++ ((optionallyBuildWhere sq q vals.length).sql
                ++ (if ret then (" RETURNING *" : String) else ""))),
           vals ++ (optionallyBuildWhere sq q vals.length).values⟩ := by
      simp only [update, buildTableName, hbec]
      simp [str_append_assoc]
    have hret : ∀ d, ((if ret then (" RETURNING *" : String) else "")).data.head? = some d →
        d.isDigit = false := by
      cases ret
      · intro d hd
        exact Option.noConfusion hd
      · intro d hd
        have h3 : ' ' = d := Option.some.inj hd
        rw [← h3]
        decide
    have hscanret : scanAux ((if ret then (" RETURNING *" : String) else "")).data none = [] := by
      cases ret
      · rfl
      · exact scanAux_nil_of_free _ (by decide)
    rw [h0]
    show (scanAux ((("UPDATE " ++ conditionalQuote sq t ++ " SET ")
        ++ (joinSep (", ") cls
          ++ ((optionallyBuildWhere sq q vals.length).sql
            ++ (if ret then (" RETURNING *" : String) else ""))))).data none).map _ = _
    rw [scan_prefix_free _ _ (dollar_free_append _ _ (dollar_free_append _ _
        (by decide) htfree) (by decide))]
    have hsplit : ((joinSep (", ") cls
          ++ ((optionallyBuildWhere sq q vals.length).sql
            ++ (if ret then (" RETURNING *" : String) else "")))).data
        = (joinSep (", ") cls).data
          ++ ((optionallyBuildWhere sq q vals.length).sql.data
            ++ ((if ret then (" RETURNING *" : String) else "")).data) := rfl
    rw [hsplit,
      scanAux_append_of_head_not_digit _ _ (by
        intro d hd
        have h3 : ((optionallyBuildWhere sq q vals.length).sql.data
              ++ ((if ret then (" RETURNING *" : String) else "")).data).head? = some d := hd
        exact head_not_digit_append _ _ (where_head sq q vals.length) hret d h3) none,
      scanAux_append_of_head_not_digit _ _ hret none,
      hscanret, scan_joinSep (", ") ',' rfl (by decide) (by decide) cls, hflat,
      where_scan sq q hq vals.length]
    rw [List.append_nil, phChars_append_zero, phChars_map_phList]
    simp
  · intro hrec
    exact create_scan sq t records ht hrec
  · intro hqk hupk
    have hmerged : (buildColumnListFromAllRecords [jsMerge q upd]).all plainKey = true := by
      refine all_firstDedup _ _ ?_
      simp only [List.map_cons, List.map_nil, List.flatten_cons, List.flatten_nil,
        List.append_nil]
      exact jsMerge_keys_plain q upd hqk hupk
    have hqf : (buildColumnListFromAllRecords [q]).all plainKey = true := by
      refine all_firstDedup _ _ ?_
      simp only [List.map_cons, List.map_nil, List.flatten_cons, List.flatten_nil,
        List.append_nil]
      exact hqk
    have hupf : (buildColumnListFromAllRecords [upd]).all plainKey = true := by
      refine all_firstDedup _ _ ?_
      simp only [List.map_cons, List.map_nil, List.flatten_cons, List.flatten_nil,
        List.append_nil]
      exact hupk
    obtain ⟨P, R, hPR, hPfree, hRscan⟩ := cwr_scan_parts sq t [jsMerge q upd] ht hmerged
    have hqjoin_free : '$' ∉ (joinSep (", ") (buildColumnListFromAllRecords [q])).data := by
      refine joinSep_free (", ") (by decide) _ ?_
      intro p hp
      rw [List.all_eq_true] at hqf
      exact plainKey_not_mem p (hqf p hp)
    have hejoin_free : '$' ∉ (joinSep (", ")
        ((buildColumnListFromAllRecords [upd]).map fun f => f ++ " = EXCLUDED." ++ f)).data := by
      refine joinSep_free (", ") (by decide) _ ?_
      intro p hp
      rcases List.mem_map.mp hp with ⟨g, hg, hgp⟩
      rw [← hgp]
      rw [List.all_eq_true] at hupf
      have hgfree := plainKey_not_mem g (hupf g hg)
      intro hmem
      have h4 : '$' ∈ ((g.data ++ ((" = EXCLUDED." : String)).data) ++ g.data) := hmem
      rcases List.mem_append.mp h4 with h5 | h5
      · rcases List.mem_append.mp h5 with h6 | h6
        · exact hgfree h6
        · revert h6
          decide
      · exact hgfree h5
    have hMfree : '$' ∉ ((" ON CONFLICT ("
        ++ joinSep (", ") (buildColumnListFromAllRecords [q]) ++ ")")).data :=
      dollar_free_append _ _ (dollar_free_append _ _ (by decide) hqjoin_free) (by decide)
    have hTfree : '$' ∉ ((" DO UPDATE SET "
        ++ joinSep (", ")
          ((buildColumnListFromAllRecords [upd]).map fun f => f ++ " = EXCLUDED." ++ f)
        ++ " RETURNING *")).data :=
      dollar_free_append _ _ (dollar_free_append _ _ (by decide) hejoin_free) (by decide)
    have hsql : (upsert sq t q upd).sql
        = P ++ (R ++ ((" ON CONFLICT ("
            ++ joinSep (", ") (buildColumnListFromAllRecords [q]) ++ ")")
          ++ ((optionallyBuildWhere sq q
              (createWithoutReturning sq t [jsMerge q upd]).values.length).sql
            ++ (" DO UPDATE SET "
              ++ joinSep (", ")
                ((buildColumnListFromAllRecords [upd]).map fun f => f ++ " = EXCLUDED." ++ f)
              ++ " RETURNING *")))) := by
      show ((createWithoutReturning sq t [jsMerge q upd]).sql
          ++ " ON CONFLICT (" ++ joinSep (", ") (buildColumnListFromAllRecords [q]) ++ ")"
          ++ (optionallyBuildWhere sq q
              (createWithoutReturning sq t [jsMerge q upd]).values.length).sql
          ++ " DO UPDATE SET "
          ++ joinSep (", ")
            ((buildColumnListFromAllRecords [upd]).map fun f => f ++ " = EXCLUDED." ++ f)
          ++ " RETURNING *") = _
      rw [hPR]
      simp [str_append_assoc]
    rw [hsql]
    simp only [placeholderOccurrences]
    rw [scan_prefix_free _ _ hPfree]
    show (scanAux (R.data ++ (((" ON CONFLICT ("
        ++ joinSep (", ") (buildColumnListFromAllRecords [q]) ++ ")")
        ++ ((optionallyBuildWhere sq q
            (createWithoutReturning sq t [jsMerge q upd]).values.length).sql
          ++ (" DO UPDATE SET "
            ++ joinSep (", ")
              ((buildColumnListFromAllRecords [upd]).map fun f => f ++ " = EXCLUDED." ++ f)
            ++ " RETURNING *")))).data) none).map _ = _
    rw [scanAux_append_of_head_not_digit _ _ (by
        intro d hd
        have h3 : ' ' = d := Option.some.inj hd
        rw [← h3]
        decide) none]
    show (List.map _ (scanAux R.data none
        ++ scanAux (((" ON CONFLICT ("
            ++ joinSep (", ") (buildColumnListFromAllRecords [q]) ++ ")")).data
          ++ (((optionallyBuildWhere sq q
              (createWithoutReturning sq t [jsMerge q upd]).values.length).sql
            ++ (" DO UPDATE SET "
              ++ joinSep (", ")
                ((buildColumnListFromAllRecords [upd]).map fun f => f ++ " = EXCLUDED." ++ f)
              ++ " RETURNING *"))).data) none)) = _
    rw [scanAux_append_of_prefix_free _ _ hMfree]
    show (List.map _ (scanAux R.data none
        ++ scanAux ((optionallyBuildWhere sq q
            (createWithoutReturning sq t [jsMerge q upd]).values.length).sql.data
          ++ ((" DO UPDATE SET "
            ++ joinSep (", ")
              ((buildColumnListFromAllRecords [upd]).map fun f => f ++ " = EXCLUDED." ++ f)
            ++ " RETURNING *")).data) none)) = _
    rw [scanAux_append_of_head_not_digit _ _ (by
        intro d hd
        have h3 : ' ' = d := Option.some.inj hd
        rw [← h3]
        decide) none,
      where_scan sq q hq (createWithoutReturning sq t [jsMerge q upd]).values.length,
      scanAux_nil_of_free ((" DO UPDATE SET "
        ++ joinSep (", ")
          ((buildColumnListFromAllRecords [upd]).map fun f => f ++ " = EXCLUDED." ++ f)
        ++ " RETURNING *")).data hTfree,
      List.append_nil, hRscan, phChars_append_zero, phChars_map_phList]
    show phList 0 ((createWithoutReturning sq t [jsMerge q upd]).values.length
        + (optionallyBuildWhere sq q
            (createWithoutReturning sq t [jsMerge q upd]).values.length).values.length)
      = phList 0 ((createWithoutReturning sq t [jsMerge q upd]).values
          ++ (optionallyBuildWhere sq q
              (createWithoutReturning sq t [jsMerge q upd]).values.length).values).length
    rw [List.length_append]

theorem c1_placeholders_witness :
    plainKey ("users") = true ∧ wfDoc [("id", Value.str "1")] = true
      ∧ wfDoc [("name", Value.str "x")] = true
      ∧ (((none : Option QueryOptions).getD emptyOptions).includeFields.getD []).all
          plainKey = true
      ∧ (((none : Option QueryOptions).getD emptyOptions).sort.getD []).all
          (fun s => plainKey s.field && plainKey s.direction) = true
      ∧ (placeholderOccurrences (find true ("users") [("id", Value.str "1")] none).sql
          = phList 0 (find true ("users") [("id", Value.str "1")] none).values.length
        ∧ placeholderOccurrences (delete true ("users") (some [("id", Value.str "1")])).sql
          = phList 0 (delete true ("users")
              (some [("id", Value.str "1")])).values.length
        ∧ placeholderOccurrences (update true ("users") [("id", Value.str "1")]
            [("name", Value.str "x")] true).sql
          = phList 0 (update true ("users") [("id", Value.str "1")]
              [("name", Value.str "x")] true).values.length
        ∧ ((buildColumnListFromAllRecords [[("a", Value.num 7)]]).all plainKey = true →
            placeholderOccurrences (create true ("users") [[("a", Value.num 7)]]).sql
              = phList 0 (create true ("users") [[("a", Value.num 7)]]).values.length)
        ∧ (([("id", Value.str "1")].map Prod.fst).all plainKey = true →
            ([("name", Value.str "x")].map Prod.fst).all plainKey = true →
            placeholderOccurrences
                (upsert true ("users") [("id", Value.str "1")] [("name", Value.str "x")]).sql
              = phList 0 (upsert true ("users") [("id", Value.str "1")]
                  [("name", Value.str "x")]).values.length)) :=
  ⟨by decide, by decide, by decide, by decide, by decide,
   c1_placeholders true true ("users") [("id", Value.str "1")] [("name", Value.str "x")]
     [[("a", Value.num 7)]] none (by decide) (by decide) (by decide) (by decide) (by decide)⟩


end PGStore
